import Mathlib

/-!
# single_threaded.c : a four stage character pipeline over three shared buffers

Shallow embedding of `src/single_threaded.c` and the properties checked against it.

## Modelling conventions

* The program state is the set of globals (`end_processing`, `prev_plus`, and for each
  buffer `k` the array `buffer_k` with `count_k`, `produced_idx_k`, `consumed_idx_k`)
  together with the bytes written to standard output so far.  The three buffers have the
  same shape, so each is a `Buffer` record; `s.buffer_2.count` is the global `count_2`.
* The `int` counters start at `0`, are only ever incremented by one, and `count_k` is
  decremented only after the wait loop has seen it non-zero; they are natural numbers.
* The source writes one-character string literals where a character is meant, and each
  is read as C reads it: as the address of the literal.
  In a test (`item == "\n"`, `item == "+"`, `letter[idx + 1] == "S"`,
  `buffer_2[consumed_idx_2] == "+"`) the value of a character is compared with an
  address, which is not the value of a character: the test is false (`eq_literal`).
  In an initialiser (`char space = " "`, `char exp = "^"`) the address is converted to
  `char`; the byte this leaves depends on where the literal is stored and is a
  parameter of the stage (`space`, `exp`).  In the same way
  `line_eighty[i % 80] = get_buff_3;` in `write_output` is a store of the function
  designator and not a call, and the byte it leaves is the parameter `fn`.
  A character passed through a `char *` result keeps its value.
* Arrays declared at file scope start zero filled.  An access to `buffer_k[i]` with
  `MAX_CHAR <= i` is reported as `Status.outOfBounds` and stops the stage.
* Each stage is run on its own as a sequential function on the state, in which
  mutexes and condition variables have no part.  `get_buff_k` on a buffer with
  `count_k == 0` waits on a condition that no later step of the same stage can signal:
  the stage stops there with `Status.blocked` and the state it has reached.
* For the lock discipline the buffer operations and the loops of the four stages are
  embedded a second time, as the sequence of lock, unlock, wait, signal and shared
  variable access events they perform in program order along the same runs.  Whether
  a stage holds a mutex at an access is a property of its own sequence of events.

## Layout

The program (its functions on the state, then its event sequences), then the
observations and the specification side definitions used to state the properties,
then auxiliary definitions for the proofs, then lemmas, then one theorem for each
property (named in its doc comment by the identifier of the
claim it settles).
-/

namespace SingleThreaded

/-! ## The program -/

/-- Size of the buffers (`#define MAX_CHAR 1000`). -/
def MAX_CHAR : Nat := 1000

/-- Number of lines (`#define MAX_LINES 50`); no function of the file uses it. -/
def MAX_LINES : Nat := 50

/-- The zero byte: the initial content of every slot of the file scope arrays, and the
value the source stores with `line_eighty[k] = NULL`. -/
def NUL : Char := Char.ofNat 0

/-- One of the three shared buffers with its bookkeeping globals. -/
structure Buffer where
  /-- The array `buffer_k`, as the value stored at each index. -/
  data : Nat → Char
  /-- The global `count_k`: number of items in the buffer. -/
  count : Nat
  /-- The global `produced_idx_k`: index where the next item is put. -/
  produced_idx : Nat
  /-- The global `consumed_idx_k`: index where the next item is picked up. -/
  consumed_idx : Nat

/-- A buffer as the program starts: zero filled array, all three counters `0`. -/
def Buffer.empty : Buffer :=
  { data := fun _ => NUL, count := 0, produced_idx := 0, consumed_idx := 0 }

/-- The globals of the program and the bytes printed so far. -/
structure State where
  end_processing : Nat
  prev_plus : Nat
  buffer_1 : Buffer
  buffer_2 : Buffer
  buffer_3 : Buffer
  stdout : List Char

/-- The state in which `main` starts the four threads. -/
def init : State :=
  { end_processing := 0, prev_plus := 0,
    buffer_1 := Buffer.empty, buffer_2 := Buffer.empty, buffer_3 := Buffer.empty,
    stdout := [] }

/-- How a run of a stage (or of one buffer operation) ends. -/
inductive Status where
  /-- The loop ran all its iterations and the function returned. -/
  | finished
  /-- A `get_buff_k` found `count_k == 0` and waits. -/
  | blocked
  /-- An array was indexed at or beyond `MAX_CHAR`. -/
  | outOfBounds
  deriving DecidableEq

/-- Body of `put_buff_k` between lock and unlock:
`buffer[produced_idx] = item; produced_idx = produced_idx + 1; count++`.
There is no test for a full buffer in the source. -/
def Buffer.put (item : Char) (b : Buffer) : Option Buffer :=
  if b.produced_idx < MAX_CHAR then
    some { b with
      data := fun i => if i = b.produced_idx then item else b.data i
      produced_idx := b.produced_idx + 1
      count := b.count + 1 }
  else none

/-- Body of `get_buff_k`: wait while `count == 0`, then
`item = buffer[consumed_idx]; consumed_idx = consumed_idx + 1; count--`. -/
def Buffer.get (b : Buffer) : Except Status (Char × Buffer) :=
  if b.count = 0 then .error .blocked
  else if b.consumed_idx < MAX_CHAR then
    .ok (b.data b.consumed_idx,
         { b with consumed_idx := b.consumed_idx + 1, count := b.count - 1 })
  else .error .outOfBounds

/-- `put_buff_1(item)`. -/
def put_buff_1 (item : Char) (s : State) : Option State :=
  (s.buffer_1.put item).map fun b => { s with buffer_1 := b }

/-- `put_buff_2(item)`. -/
def put_buff_2 (item : Char) (s : State) : Option State :=
  (s.buffer_2.put item).map fun b => { s with buffer_2 := b }

/-- `put_buff_3(item)`. -/
def put_buff_3 (item : Char) (s : State) : Option State :=
  (s.buffer_3.put item).map fun b => { s with buffer_3 := b }

/-- `get_buff_1()`. -/
def get_buff_1 (s : State) : Except Status (Char × State) :=
  match s.buffer_1.get with
  | .error e => .error e
  | .ok (item, b) => .ok (item, { s with buffer_1 := b })

/-- `get_buff_2()`. -/
def get_buff_2 (s : State) : Except Status (Char × State) :=
  match s.buffer_2.get with
  | .error e => .error e
  | .ok (item, b) => .ok (item, { s with buffer_2 := b })

/-- `get_buff_3()`. -/
def get_buff_3 (s : State) : Except Status (Char × State) :=
  match s.buffer_3.get with
  | .error e => .error e
  | .ok (item, b) => .ok (item, { s with buffer_3 := b })

/-- The value of a test `c == "x"` of the source, where `c` is a character and `"x"` a
string literal.  The operand `"x"` is the address of the literal, and C compares the
value of the character with that address.  The address of a string literal is not
the value of a character, so the test is false whatever the character and the
literal are. -/
def eq_literal (_c : Char) (_literal : String) : Bool := false

/-- `stop_processing(letter, idx)`: the five nested tests of the characters after
`idx` against the literals `"S"`, `"T"`, `"O"`, `"P"`, `"\n"`. -/
def stop_processing (letter : Nat → Char) (idx : Nat) : Bool :=
  if eq_literal (letter (idx + 1)) "S" then
    if eq_literal (letter (idx + 2)) "T" then
      if eq_literal (letter (idx + 3)) "O" then
        if eq_literal (letter (idx + 4)) "P" then
          if eq_literal (letter (idx + 5)) "\n" then true else false
        else false
      else false
    else false
  else false

/-- The `for` loop of `get_input`, from index `i` with `fuel` iterations left:
put `character[i]`, then test `stop_processing(character, i)`. -/
def get_input_loop (character : Nat → Char) : Nat → Nat → State → Status × State
  | 0, _, s => (.finished, s)
  | fuel + 1, i, s =>
    match put_buff_1 (character i) s with
    | none => (.outOfBounds, s)
    | some s1 =>
      if stop_processing character i then
        (.finished, { s1 with end_processing := 1 })
      else get_input_loop character fuel (i + 1) s1

/-- `get_input`.  The array `character` is a parameter: `get_user_input`, whose
`scanf` is to fill it, is not modelled, and `character i` is whatever the array and the
memory after it hold at index `i`. -/
def get_input (character : Nat → Char) (s : State) : Status × State :=
  get_input_loop character MAX_CHAR 0 s

/-- The `for` loop of `separate_line` with `fuel` iterations left.  `space` is the
byte that `char space = " "` leaves in the local variable. -/
def separate_line_loop (space : Char) : Nat → State → Status × State
  | 0, s => (.finished, s)
  | fuel + 1, s =>
    match get_buff_1 s with
    | .error e => (e, s)
    | .ok (item, s1) =>
      if eq_literal item "\n" then
        match put_buff_2 space s1 with
        | none => (.outOfBounds, s1)
        | some s2 => separate_line_loop space fuel s2
      else
        match put_buff_2 item s1 with
        | none => (.outOfBounds, s1)
        | some s2 => separate_line_loop space fuel s2

/-- `separate_line`. -/
def separate_line (space : Char) (s : State) : Status × State :=
  separate_line_loop space MAX_CHAR s

/-- `check_next()`: the test of `buffer_2[consumed_idx_2]` against the literal `"+"`.
`none` when the index is outside the array. -/
def check_next (s : State) : Option Bool :=
  if s.buffer_2.consumed_idx < MAX_CHAR then
    some (eq_literal (s.buffer_2.data s.buffer_2.consumed_idx) "+")
  else none

/-- The `for` loop of `plusChange` with `fuel` iterations left.  `exp` is the byte
that `char exp = "^"` leaves in the local variable.  In the branch of the test
`item == "+"` nothing is put unless `check_next()` holds, and then `consumed_idx_2`
alone is advanced, outside `get_buff_2`. -/
def plusChange_loop (exp : Char) : Nat → State → Status × State
  | 0, s => (.finished, s)
  | fuel + 1, s =>
    match get_buff_2 s with
    | .error e => (e, s)
    | .ok (item, s1) =>
      if eq_literal item "+" then
        match check_next s1 with
        | none => (.outOfBounds, s1)
        | some true =>
          match put_buff_3 exp s1 with
          | none => (.outOfBounds, s1)
          | some s2 =>
            plusChange_loop exp fuel
              { s2 with buffer_2 :=
                  { s2.buffer_2 with consumed_idx := s2.buffer_2.consumed_idx + 1 } }
        | some false => plusChange_loop exp fuel s1
      else
        match put_buff_3 item s1 with
        | none => (.outOfBounds, s1)
        | some s2 => plusChange_loop exp fuel s2

/-- `plusChange`. -/
def plusChange (exp : Char) (s : State) : Status × State :=
  plusChange_loop exp MAX_CHAR s

/-- What `printf("%s\n", line_eighty)` writes: the bytes of the 80 slot array up to its
first zero byte, then a newline.  Memory after the array is not modelled: the string
is taken to end with the array. -/
def printf_line (line_eighty : Nat → Char) : List Char :=
  ((List.range 80).map line_eighty).takeWhile (fun c => c ≠ NUL) ++ ['\n']

/-- Array store `a[k] = v`. -/
def store (a : Nat → Char) (k : Nat) (v : Char) : Nat → Char :=
  fun i => if i = k then v else a i

/-- The `for` loop of `write_output` at index `i` with `fuel` iterations left.
The two guards `i < 80` and `i >= 80` of the source exclude each other and the body
does not change `i`, so they are the two branches of one test.  In the second branch
the source stores `get_buff_3` itself (no call): the byte `fn` that this conversion
yields is a parameter, and `buffer_3` is not touched. -/
def write_output_loop (fn : Char) : Nat → Nat → (Nat → Char) → State → Status × State
  | 0, _, _, s => (.finished, s)
  | fuel + 1, i, line_eighty, s =>
    if i < 80 then
      match get_buff_3 s with
      | .error e => (e, s)
      | .ok (item, s1) =>
        let line := store line_eighty i item
        if i = 79 then
          write_output_loop fn fuel (i + 1) (fun _ => NUL)
            { s1 with stdout := s1.stdout ++ printf_line line }
        else write_output_loop fn fuel (i + 1) line s1
    else
      let line := store line_eighty (i % 80) fn
      if i % 80 = 0 then
        write_output_loop fn fuel (i + 1) (fun _ => NUL)
          { s with stdout := s.stdout ++ printf_line line }
      else write_output_loop fn fuel (i + 1) line s

/-- `write_output`.  `line_eighty` is a local array without initialiser; each of its
slots is stored to before the first `printf` reads it, so its start value (here zero)
is never observed. -/
def write_output (fn : Char) (s : State) : Status × State :=
  write_output_loop fn MAX_CHAR 0 (fun _ => NUL) s

/-- Run the next stage on the state the previous one left, unless the previous one
stopped on an out of bounds access. -/
def andThen (r : Status × State) (stage : State → Status × State) : Status × State :=
  match r.1 with
  | .outOfBounds => r
  | _ => stage r.2

/-- The first three stages run one after the other from the start state, each until
it returns or waits: `get_input`, `separate_line`, `plusChange`. -/
def upstream (space exp : Char) (character : Nat → Char) : Status × State :=
  andThen (andThen (get_input character init) (separate_line space)) (plusChange exp)

/-- The four stages run one after the other from the start state, each until it
returns or waits: `get_input`, `separate_line`, `plusChange`, `write_output`. -/
def pipeline (space exp fn : Char) (character : Nat → Char) : Status × State :=
  andThen (upstream space exp character) (write_output fn)

/-! ## The program again, as sequences of lock and access events -/

/-- The shared variables of a buffer: the array and its three bookkeeping globals. -/
inductive Var where
  | data
  | count
  | produced_idx
  | consumed_idx
  deriving DecidableEq

/-- What a stage does to the mutexes, the condition variables and the shared variables
of buffer `k`, in program order. -/
inductive Event where
  /-- `pthread_mutex_lock(&mutex_k)`. -/
  | lock (k : Nat)
  /-- `pthread_mutex_unlock(&mutex_k)`. -/
  | unlock (k : Nat)
  /-- `pthread_cond_wait(&not_empty_k, &mutex_k)`. -/
  | wait (k : Nat)
  /-- `pthread_cond_signal(&not_empty_k)`. -/
  | signal (k : Nat)
  /-- A read of a shared variable of buffer `k`. -/
  | read (k : Nat) (v : Var)
  /-- A write of a shared variable of buffer `k`. -/
  | write (k : Nat) (v : Var)
  deriving DecidableEq

/-- The statements of `put_buff_k`, in order: lock, `buffer[produced_idx] = item`,
`produced_idx = produced_idx + 1`, `count++`, signal, unlock. -/
def put_events (k : Nat) : List Event :=
  [Event.lock k,
   Event.read k Var.produced_idx, Event.write k Var.data,
   Event.read k Var.produced_idx, Event.write k Var.produced_idx,
   Event.read k Var.count, Event.write k Var.count,
   Event.signal k, Event.unlock k]

/-- The statements of `put_buff_k` that a stage runs when the store is outside the
array: lock and the store. -/
def put_stopped_events (k : Nat) : List Event :=
  [Event.lock k, Event.read k Var.produced_idx, Event.write k Var.data]

/-- The statements of `get_buff_k` when the count is not zero, in order: lock, the test
`count == 0`, `item = buffer[consumed_idx]`, `consumed_idx = consumed_idx + 1`,
`count--`, unlock. -/
def get_events (k : Nat) : List Event :=
  [Event.lock k, Event.read k Var.count,
   Event.read k Var.consumed_idx, Event.read k Var.data,
   Event.read k Var.consumed_idx, Event.write k Var.consumed_idx,
   Event.read k Var.count, Event.write k Var.count,
   Event.unlock k]

/-- The statements of `get_buff_k` that a stage runs when the call does not return:
lock and the test `count == 0`, then the wait when the count is zero, or the array
read outside the array. -/
def get_stopped_events (k : Nat) : Status → List Event
  | .outOfBounds =>
    [Event.lock k, Event.read k Var.count, Event.read k Var.consumed_idx,
     Event.read k Var.data]
  | _ => [Event.lock k, Event.read k Var.count, Event.wait k]

/-- The statements of `check_next`, in order: lock, the test
`buffer_2[consumed_idx_2] == "+"`, unlock. -/
def check_next_events : List Event :=
  [Event.lock 2, Event.read 2 Var.consumed_idx, Event.read 2 Var.data, Event.unlock 2]

/-- The events of the loop of `get_input` from index `i` with `fuel` iterations left,
along the run of `get_input_loop` from the same state: `put_buff_1`, then
`stop_processing`, which reads the local array only. -/
def get_input_events (character : Nat → Char) : Nat → Nat → State → List Event
  | 0, _, _ => []
  | fuel + 1, i, s =>
    match put_buff_1 (character i) s with
    | none => put_stopped_events 1
    | some s1 =>
      put_events 1 ++
      if stop_processing character i then []
      else get_input_events character fuel (i + 1) s1

/-- The events of the loop of `separate_line` with `fuel` iterations left, along the
run of `separate_line_loop` from the same state: `get_buff_1`, then `put_buff_2`. -/
def separate_line_events (space : Char) : Nat → State → List Event
  | 0, _ => []
  | fuel + 1, s =>
    match get_buff_1 s with
    | .error e => get_stopped_events 1 e
    | .ok (item, s1) =>
      get_events 1 ++
      if eq_literal item "\n" then
        match put_buff_2 space s1 with
        | none => put_stopped_events 2
        | some s2 => put_events 2 ++ separate_line_events space fuel s2
      else
        match put_buff_2 item s1 with
        | none => put_stopped_events 2
        | some s2 => put_events 2 ++ separate_line_events space fuel s2

/-- The events of the loop of `plusChange` with `fuel` iterations left, along the run
of `plusChange_loop` from the same state: `get_buff_2`, then in the branch of the test
`item == "+"` the events of `check_next` and, when it holds, of `put_buff_3` and of
`consumed_idx_2 = consumed_idx_2 + 1`, and in the other branch those of
`put_buff_3`. -/
def plusChange_events (exp : Char) : Nat → State → List Event
  | 0, _ => []
  | fuel + 1, s =>
    match get_buff_2 s with
    | .error e => get_stopped_events 2 e
    | .ok (item, s1) =>
      get_events 2 ++
      if eq_literal item "+" then
        match check_next s1 with
        | none => [Event.lock 2, Event.read 2 Var.consumed_idx, Event.read 2 Var.data]
        | some true =>
          check_next_events ++
          match put_buff_3 exp s1 with
          | none => put_stopped_events 3
          | some s2 =>
            put_events 3 ++
            [Event.read 2 Var.consumed_idx, Event.write 2 Var.consumed_idx] ++
            plusChange_events exp fuel
              { s2 with buffer_2 :=
                  { s2.buffer_2 with consumed_idx := s2.buffer_2.consumed_idx + 1 } }
        | some false => check_next_events ++ plusChange_events exp fuel s1
      else
        match put_buff_3 item s1 with
        | none => put_stopped_events 3
        | some s2 => put_events 3 ++ plusChange_events exp fuel s2

/-- The events of the loop of `write_output` at index `i` with `fuel` iterations left,
along the run of `write_output_loop` from the same state: `get_buff_3` while `i < 80`,
and no access to a shared variable after that. -/
def write_output_events : Nat → Nat → State → List Event
  | 0, _, _ => []
  | fuel + 1, i, s =>
    if i < 80 then
      match get_buff_3 s with
      | .error e => get_stopped_events 3 e
      | .ok (_, s1) => get_events 3 ++ write_output_events fuel (i + 1) s1
    else write_output_events fuel (i + 1) s

/-! ## Observations and specification side definitions -/

/-- An input text as the array `get_input` reads: the characters of the text, then
zero bytes. -/
def ofText (text : List Char) : Nat → Char :=
  fun i => text.getD i NUL

/-- Everything put into a buffer so far, oldest first: slots `0 .. produced_idx - 1`. -/
def Buffer.contents (b : Buffer) : List Char :=
  (List.range b.produced_idx).map b.data

/-- The items a consumer has still to get, in order: `count` slots from
`consumed_idx` on. -/
def Buffer.pending (b : Buffer) : List Char :=
  (List.range b.count).map fun j => b.data (b.consumed_idx + j)

/-- Put the characters of `l` into `buffer_1`, in order, by `put_buff_1`. -/
def puts_1 (l : List Char) (s : State) : Option State :=
  l.foldlM (fun st c => put_buff_1 c st) s

/-- Put the characters of `l` into `buffer_2`, in order, by `put_buff_2`. -/
def puts_2 (l : List Char) (s : State) : Option State :=
  l.foldlM (fun st c => put_buff_2 c st) s

/-- Put the characters of `l` into `buffer_3`, in order, by `put_buff_3`. -/
def puts_3 (l : List Char) (s : State) : Option State :=
  l.foldlM (fun st c => put_buff_3 c st) s

/-- Run `plusChange` after `buffer_2` has received `l` from the start state: how the
stage ends and everything it has put into `buffer_3`. -/
def plusChange_on (exp : Char) (l : List Char) : Option (Status × List Char) :=
  (puts_2 l init).map fun s =>
    ((plusChange exp s).1, (plusChange exp s).2.buffer_3.contents)

/-- Run `write_output` after `buffer_3` has received `l` from the start state: the bytes
written to standard output. -/
def write_output_on (fn : Char) (l : List Char) : Option (List Char) :=
  (puts_3 l init).map fun s => (write_output fn s).2.stdout

/-- One call made on a buffer by its producer or its consumer. -/
inductive Op where
  | put (item : Char)
  | get

/-- Run a schedule of `put_buff_k` and `get_buff_k` calls, given as the two functions
`put` and `get`; the result is the list of values the `get` calls returned, in call
order.  A `get` that would wait, or an access outside the array, ends the run. -/
def run_ops (put : Char → State → Option State)
    (get : State → Except Status (Char × State)) :
    List Op → State → Except Status (List Char)
  | [], _ => .ok []
  | Op.put item :: ops, s =>
    match put item s with
    | none => .error .outOfBounds
    | some s1 => run_ops put get ops s1
  | Op.get :: ops, s =>
    match get s with
    | .error e => .error e
    | .ok (item, s1) =>
      match run_ops put get ops s1 with
      | .error e => .error e
      | .ok items => .ok (item :: items)

/-- The items a schedule puts, in order. -/
def Op.puts : List Op → List Char
  | [] => []
  | Op.put item :: ops => item :: Op.puts ops
  | Op.get :: ops => Op.puts ops

/-- The number of `get` calls of a schedule. -/
def Op.gets : List Op → Nat
  | [] => 0
  | Op.put _ :: ops => Op.gets ops
  | Op.get :: ops => Op.gets ops + 1

/-- Every `get` of the schedule is made when the count is positive, the count being
`count` before the first call. -/
def Op.getsWhenPositive : Nat → List Op → Bool
  | _, [] => true
  | count, Op.put _ :: ops => Op.getsWhenPositive (count + 1) ops
  | 0, Op.get :: _ => false
  | count + 1, Op.get :: ops => Op.getsWhenPositive count ops

/-- What the line separator is to do with one character: a newline becomes a space. -/
def separate (c : Char) : Char :=
  if c = '\n' then ' ' else c

/-- The two states of the plus-collapse machine of the specification. -/
inductive PlusState where
  | NORMAL
  | SEEN_PLUS

/-- The state machine of the specification, section 4.4, row by row: the characters it
puts when started in the given state on the given input followed by end of stream. -/
def collapse_from : PlusState → List Char → List Char
  | .NORMAL, [] => []
  | .SEEN_PLUS, [] => ['+']
  | .NORMAL, c :: rest =>
    if c = '+' then collapse_from .SEEN_PLUS rest else c :: collapse_from .NORMAL rest
  | .SEEN_PLUS, c :: rest =>
    if c = '+' then '^' :: collapse_from .NORMAL rest
    else '+' :: c :: collapse_from .NORMAL rest

/-- The specification's `collapse`: the machine started in `NORMAL`. -/
def collapse (l : List Char) : List Char :=
  collapse_from .NORMAL l

/-- No two plus signs are adjacent in the sequence. -/
def noAdjacentPlus : List Char → Bool
  | [] => true
  | [_] => true
  | c :: d :: rest => !(c == '+' && d == '+') && noAdjacentPlus (d :: rest)

/-- The output the specification asks of the output stage for the stream `l`:
`l.length / 80` lines, line `k` being items `80 k .. 80 k + 79` and a newline. -/
def blocks (l : List Char) : List Char :=
  ((List.range (l.length / 80)).map fun k => (l.drop (80 * k)).take 80 ++ ['\n']).flatten

/-- The input of the end to end example: 40 `x`, newline, 40 `y`, newline, `STOP`,
newline. -/
def twoLines : List Char :=
  List.replicate 40 'x' ++ ['\n'] ++ List.replicate 40 'y' ++ ['\n'] ++
    ['S', 'T', 'O', 'P', '\n']

/-- The single output line the end to end example is to give: 40 `x`, a space, 39 `y`,
and the newline that ends the line. -/
def twoLinesExpected : List Char :=
  List.replicate 40 'x' ++ [' '] ++ List.replicate 39 'y' ++ ['\n']

/-- The first 80 characters of the input of the end to end example as they are, and the
newline that `printf` adds: 40 `x`, a newline, 39 `y`, a newline. -/
def twoLinesFirst : List Char :=
  List.replicate 40 'x' ++ ['\n'] ++ List.replicate 39 'y' ++ ['\n']

/-- The accesses to `count_k`, `produced_idx_k` and `consumed_idx_k` in a sequence of
events that are made while the stage does not hold `mutex_k`; `held` lists the
mutexes held before the first event. -/
def unlocked_accesses : List Nat → List Event → List Event
  | _, [] => []
  | held, Event.lock k :: rest => unlocked_accesses (k :: held) rest
  | held, Event.unlock k :: rest => unlocked_accesses (held.erase k) rest
  | held, Event.wait _ :: rest => unlocked_accesses held rest
  | held, Event.signal _ :: rest => unlocked_accesses held rest
  | held, Event.read k v :: rest =>
    if v = Var.data ∨ k ∈ held then unlocked_accesses held rest
    else Event.read k v :: unlocked_accesses held rest
  | held, Event.write k v :: rest =>
    if v = Var.data ∨ k ∈ held then unlocked_accesses held rest
    else Event.write k v :: unlocked_accesses held rest

/-! ## Auxiliary definitions for the proofs -/

/-- The iterations `i < 80` of the loop of `write_output`, `k` of them left before
index 80 is reached: the state after the first `printf`, or the status and state at
which a `get_buff_3` stopped the stage. -/
def first_block : Nat → Nat → (Nat → Char) → State → Except (Status × State) State
  | 0, _, _, s => .ok s
  | k + 1, i, line_eighty, s =>
    match get_buff_3 s with
    | .error e => .error (e, s)
    | .ok (item, s1) =>
      if i = 79 then
        .ok { s1 with stdout := s1.stdout ++ printf_line (store line_eighty i item) }
      else first_block k (i + 1) (store line_eighty i item) s1

/-- The output, `consumed_idx_3` and `count_3` after the first 80 iterations of the loop
of `write_output`, when none of them stopped the stage. -/
def first_block_seen (s : State) : Option (List Char × Nat × Nat) :=
  match first_block 80 0 (fun _ => NUL) s with
  | .error _ => none
  | .ok s80 => some (s80.stdout, s80.buffer_3.consumed_idx, s80.buffer_3.count)

/-- The input that is the sentinel line and nothing else. -/
def stopOnly : List Char := ['S', 'T', 'O', 'P', '\n']

/-- A stream of 81 items for the output stage. -/
def stream81 : List Char := List.replicate 81 'a'

/-- A stream of 160 items for the output stage: 80 `a` then 80 `b`. -/
def stream160 : List Char := List.replicate 80 'a' ++ List.replicate 80 'b'

/-- Schedule of the FIFO example: two puts, a get, a put, two gets. -/
def fifoExample : List Op :=
  [Op.put 'a', Op.put 'b', Op.get, Op.put 'c', Op.get, Op.get]

/-- State of the line separator example: `buffer_1` holds `a`, newline, `b`; the rest
is as `main` starts. -/
def separateExample : State :=
  { init with buffer_1 :=
      { data := ofText ['a', '\n', 'b'], count := 3, produced_idx := 3, consumed_idx := 0 } }

/-- State of the lone plus example: `buffer_2` holds `+ + `; the rest is as `main`
starts. -/
def plusExample : State :=
  { init with buffer_2 :=
      { data := ofText ['+', ' ', '+', ' '], count := 4, produced_idx := 4,
        consumed_idx := 0 } }

/-- State of the caret example: `buffer_2` holds `+^ +`; the rest is as `main` starts. -/
def caretExample : State :=
  { init with buffer_2 :=
      { data := ofText ['+', '^', ' ', '+'], count := 4, produced_idx := 4,
        consumed_idx := 0 } }

/-- The start state after `get_input` has put the first `n` characters of the array
`character` into `buffer_1`, the loop of `separate_line` has moved the first `a` of them
into `buffer_2`, and the loop of `plusChange` the first `b` of those into `buffer_3`, each
as it is. -/
def staged (character : Nat → Char) (n a b : Nat) : State :=
  { init with
    buffer_1 :=
      { data := fun i => if i < n then character i else NUL
        count := n - a, produced_idx := n, consumed_idx := a }
    buffer_2 :=
      { data := fun i => if i < a then character i else NUL
        count := a - b, produced_idx := a, consumed_idx := b }
    buffer_3 :=
      { data := fun i => if i < b then character i else NUL
        count := b, produced_idx := b, consumed_idx := 0 } }

/-- A state within the bound `count_1 <= MAX_CHAR` whose `buffer_1` is full by its
count: `count_1` is `MAX_CHAR`, the two indices are at the start of the array. -/
def fullExample : State :=
  { init with buffer_1 :=
      { data := fun _ => 'a', count := MAX_CHAR, produced_idx := 0, consumed_idx := 0 } }

/-- A state with one item waiting in each buffer. -/
def oneEach : State :=
  { init with
    buffer_1 := { data := ofText ['a'], count := 1, produced_idx := 1, consumed_idx := 0 }
    buffer_2 := { data := ofText ['b'], count := 1, produced_idx := 1, consumed_idx := 0 }
    buffer_3 := { data := ofText ['c'], count := 1, produced_idx := 1, consumed_idx := 0 } }

/-- The state with one item waiting in each buffer and `end_processing` set to 1. -/
def flagSet : State :=
  { oneEach with end_processing := 1 }

/-- The input `a`, newline, `STOP`, newline. -/
def shortInput : List Char := ['a', '\n', 'S', 'T', 'O', 'P', '\n']

/-- A byte for `space`, `exp` and `fn` where an example needs one. -/
def someByte : Char := '?'

/-! ## The output stage: lemmas -/

theorem get_buff_3_stdout {s s1 : State} {item : Char}
    (h : get_buff_3 s = .ok (item, s1)) : s1.stdout = s.stdout := by
  unfold get_buff_3 at h
  split at h
  · cases h
  · cases h; rfl

theorem write_output_loop_stdout (fn : Char) :
    ∀ (fuel i : Nat) (line : Nat → Char) (s : State),
      ∃ extra, (write_output_loop fn fuel i line s).2.stdout = s.stdout ++ extra := by
  intro fuel
  induction fuel with
  | zero => intro i line s; exact ⟨[], by simp [write_output_loop]⟩
  | succ n ih =>
    intro i line s
    rw [write_output_loop]
    dsimp only
    split
    · split
      · exact ⟨[], by simp⟩
      · rename_i item s1 hg
        split
        · obtain ⟨e, he⟩ := ih (i + 1) (fun _ => NUL)
            { s1 with stdout := s1.stdout ++ printf_line (store line i item) }
          exact ⟨printf_line (store line i item) ++ e, by
            rw [he]; simp [get_buff_3_stdout hg]⟩
        · obtain ⟨e, he⟩ := ih (i + 1) (store line i item) s1
          exact ⟨e, by rw [he, get_buff_3_stdout hg]⟩
    · split
      · obtain ⟨e, he⟩ := ih (i + 1) (fun _ => NUL)
            { s with stdout := s.stdout ++ printf_line (store line (i % 80) fn) }
        exact ⟨printf_line (store line (i % 80) fn) ++ e, by rw [he]; simp⟩
      · exact ih _ _ _

theorem write_output_loop_buffer_3 (fn : Char) :
    ∀ (fuel i : Nat) (line : Nat → Char) (s : State), 80 ≤ i →
      (write_output_loop fn fuel i line s).2.buffer_3 = s.buffer_3 := by
  intro fuel
  induction fuel with
  | zero => intro i line s _; simp [write_output_loop]
  | succ n ih =>
    intro i line s hi
    rw [write_output_loop]
    dsimp only
    rw [if_neg (by omega)]
    split
    · rw [ih _ _ _ (by omega)]
    · rw [ih _ _ _ (by omega)]

theorem printf_line_store_fn (fn : Char) :
    printf_line (store (fun _ => NUL) 0 fn) = if fn = NUL then ['\n'] else [fn, '\n'] := by
  by_cases h : fn = NUL
  · subst h; rfl
  · rw [if_neg h]
    have h1 : (List.range 80).map (store (fun _ => NUL) 0 fn)
        = fn :: NUL :: List.replicate 78 NUL := rfl
    unfold printf_line
    rw [h1]
    simp [List.takeWhile, h]

theorem write_output_loop_first_block (fn : Char) :
    ∀ (k fuel i : Nat) (line : Nat → Char) (s : State), i + (k + 1) = 80 →
      write_output_loop fn (fuel + (k + 1)) i line s =
        match first_block (k + 1) i line s with
        | .error r => r
        | .ok s80 => write_output_loop fn fuel 80 (fun _ => NUL) s80 := by
  intro k
  induction k with
  | zero =>
    intro fuel i line s hi
    have h79 : i = 79 := by omega
    subst h79
    rw [show fuel + (0 + 1) = fuel + 1 from rfl, write_output_loop, first_block]
    cases hg : get_buff_3 s with
    | error e => simp
    | ok p => simp
  | succ k ih =>
    intro fuel i line s hi
    rw [show fuel + (k + 1 + 1) = (fuel + (k + 1)) + 1 from rfl, write_output_loop,
      first_block]
    have h1 : i < 80 := by omega
    have h2 : i ≠ 79 := by omega
    cases hg : get_buff_3 s with
    | error e => simp [h1]
    | ok p =>
      simp only [h1, h2, if_true, if_false]
      exact ih fuel (i + 1) _ _ (by omega)

theorem first_block_of_seen {s : State} {out : List Char} {c n : Nat}
    (h : first_block_seen s = some (out, c, n)) :
    ∃ s80, first_block 80 0 (fun _ => NUL) s = .ok s80 ∧ s80.stdout = out ∧
      s80.buffer_3.consumed_idx = c ∧ s80.buffer_3.count = n := by
  unfold first_block_seen at h
  cases hf : first_block 80 0 (fun _ => NUL) s with
  | error e => simp [hf] at h
  | ok s80 =>
    simp only [hf, Option.some.injEq, Prod.mk.injEq] at h
    exact ⟨s80, rfl, h.1, h.2.1, h.2.2⟩

theorem write_output_of_seen (fn : Char) {s : State} {out : List Char} {c n : Nat}
    (h : first_block_seen s = some (out, c, n)) :
    ∃ extra, (write_output fn s).2.stdout
        = out ++ (printf_line (store (fun _ => NUL) 0 fn) ++ extra) ∧
      (write_output fn s).2.buffer_3.consumed_idx = c ∧
      (write_output fn s).2.buffer_3.count = n := by
  obtain ⟨s80, hf, ho, hc, hn⟩ := first_block_of_seen h
  have h1 : write_output fn s = write_output_loop fn 919 81 (fun _ => NUL)
      { s80 with stdout := s80.stdout ++ printf_line (store (fun _ => NUL) 0 fn) } := by
    unfold write_output
    rw [show MAX_CHAR = 920 + (79 + 1) from rfl,
      write_output_loop_first_block fn 79 920 0 _ s rfl, hf]
    simp only []
    rw [show (920 : Nat) = 919 + 1 from rfl, write_output_loop]
    simp
  obtain ⟨extra, he⟩ := write_output_loop_stdout fn 919 81 (fun _ => NUL)
      { s80 with stdout := s80.stdout ++ printf_line (store (fun _ => NUL) 0 fn) }
  refine ⟨extra, ?_, ?_, ?_⟩
  · rw [h1, he, ← ho]; simp
  · rw [h1, write_output_loop_buffer_3 fn _ _ _ _ (by omega)]; exact hc
  · rw [h1, write_output_loop_buffer_3 fn _ _ _ _ (by omega)]; exact hn

/-! ## Buffers: lemmas -/

theorem Buffer.put_of_lt {b : Buffer} (item : Char) (h : b.produced_idx < MAX_CHAR) :
    b.put item = some { b with
      data := fun i => if i = b.produced_idx then item else b.data i
      produced_idx := b.produced_idx + 1
      count := b.count + 1 } := by
  unfold Buffer.put
  rw [if_pos h]

theorem Buffer.contents_put_data (b : Buffer) (item : Char) :
    (List.range (b.produced_idx + 1)).map
        (fun i => if i = b.produced_idx then item else b.data i)
      = b.contents ++ [item] := by
  rw [List.range_succ, List.map_append, Buffer.contents]
  congr 1
  · apply List.map_congr_left
    intro i hi
    have : i < b.produced_idx := List.mem_range.mp hi
    rw [if_neg (by omega)]
  · simp

theorem Buffer.pending_succ (b : Buffer) (n : Nat) (h : b.count = n + 1) :
    b.pending = b.data b.consumed_idx ::
      ({ b with consumed_idx := b.consumed_idx + 1, count := b.count - 1 } : Buffer).pending := by
  unfold Buffer.pending
  simp only [h, Nat.add_sub_cancel]
  rw [List.range_succ_eq_map, List.map_cons, List.map_map]
  congr 1
  apply List.map_congr_left
  intro j _
  show b.data (b.consumed_idx + (j + 1)) = b.data (b.consumed_idx + 1 + j)
  congr 1
  omega

theorem Buffer.pending_put (b : Buffer) (item : Char)
    (h : b.consumed_idx + b.count = b.produced_idx) :
    ({ b with
        data := fun i => if i = b.produced_idx then item else b.data i
        produced_idx := b.produced_idx + 1
        count := b.count + 1 } : Buffer).pending = b.pending ++ [item] := by
  unfold Buffer.pending
  simp only []
  rw [List.range_succ, List.map_append]
  congr 1
  · apply List.map_congr_left
    intro j hj
    have : j < b.count := List.mem_range.mp hj
    rw [if_neg (by omega)]
  · simp [h]

/-- FIFO for a schedule run through any pair of functions that act on one buffer of the
state as `Buffer.put` and `Buffer.get` do. -/
theorem run_ops_fifo (put : Char → State → Option State)
    (get : State → Except Status (Char × State)) (proj : State → Buffer)
    (hput : ∀ c s, (proj s).produced_idx < MAX_CHAR → ∃ s1, put c s = some s1 ∧
      proj s1 = { proj s with
        data := fun i => if i = (proj s).produced_idx then c else (proj s).data i
        produced_idx := (proj s).produced_idx + 1
        count := (proj s).count + 1 })
    (hget : ∀ s, (proj s).count ≠ 0 → (proj s).consumed_idx < MAX_CHAR → ∃ s1,
      get s = .ok ((proj s).data (proj s).consumed_idx, s1) ∧
      proj s1 = { proj s with
        consumed_idx := (proj s).consumed_idx + 1, count := (proj s).count - 1 }) :
    ∀ (ops : List Op) (s : State),
      (proj s).consumed_idx + (proj s).count = (proj s).produced_idx →
      (proj s).produced_idx + (Op.puts ops).length ≤ MAX_CHAR →
      Op.getsWhenPositive (proj s).count ops = true →
      run_ops put get ops s = .ok (((proj s).pending ++ Op.puts ops).take (Op.gets ops)) := by
  intro ops
  induction ops with
  | nil => intro s _ _ _; simp [run_ops, Op.gets]
  | cons op ops ih =>
    intro s hinv hcap hpos
    cases op with
    | put c =>
      simp only [Op.puts, List.length_cons] at hcap
      obtain ⟨s1, hs1, hb⟩ := hput c s (by omega)
      rw [run_ops, hs1]
      simp only []
      rw [ih s1 (by rw [hb]; simp only []; omega) (by rw [hb]; simp only []; omega)
        (by rw [hb]; simpa [Op.getsWhenPositive] using hpos)]
      rw [hb, Buffer.pending_put _ _ hinv]
      simp [Op.puts, Op.gets]
    | get =>
      cases hc : (proj s).count with
      | zero => rw [hc] at hpos; simp [Op.getsWhenPositive] at hpos
      | succ n =>
        rw [hc] at hpos
        simp only [Op.getsWhenPositive] at hpos
        simp only [Op.puts] at hcap
        obtain ⟨s1, hs1, hb⟩ := hget s (by omega) (by omega)
        rw [run_ops, hs1]
        simp only []
        rw [ih s1 (by rw [hb]; simp only []; omega) (by rw [hb]; simp only []; omega)
          (by rw [hb]; simpa [hc] using hpos)]
        simp only []
        rw [hb, Buffer.pending_succ _ n hc]
        simp [Op.puts, Op.gets]

theorem put_buff_1_of_lt (item : Char) (s : State)
    (h : s.buffer_1.produced_idx < MAX_CHAR) :
    put_buff_1 item s = some { s with buffer_1 := { s.buffer_1 with
      data := fun i => if i = s.buffer_1.produced_idx then item else s.buffer_1.data i
      produced_idx := s.buffer_1.produced_idx + 1
      count := s.buffer_1.count + 1 } } := by
  simp [put_buff_1, Buffer.put, h]

theorem get_buff_1_of_pos (s : State) (h1 : s.buffer_1.count ≠ 0)
    (h2 : s.buffer_1.consumed_idx < MAX_CHAR) :
    get_buff_1 s = .ok (s.buffer_1.data s.buffer_1.consumed_idx,
      { s with buffer_1 := { s.buffer_1 with
        consumed_idx := s.buffer_1.consumed_idx + 1, count := s.buffer_1.count - 1 } }) := by
  simp [get_buff_1, Buffer.get, h1, h2]

theorem put_buff_2_of_lt (item : Char) (s : State)
    (h : s.buffer_2.produced_idx < MAX_CHAR) :
    put_buff_2 item s = some { s with buffer_2 := { s.buffer_2 with
      data := fun i => if i = s.buffer_2.produced_idx then item else s.buffer_2.data i
      produced_idx := s.buffer_2.produced_idx + 1
      count := s.buffer_2.count + 1 } } := by
  simp [put_buff_2, Buffer.put, h]

theorem get_buff_2_of_pos (s : State) (h1 : s.buffer_2.count ≠ 0)
    (h2 : s.buffer_2.consumed_idx < MAX_CHAR) :
    get_buff_2 s = .ok (s.buffer_2.data s.buffer_2.consumed_idx,
      { s with buffer_2 := { s.buffer_2 with
        consumed_idx := s.buffer_2.consumed_idx + 1, count := s.buffer_2.count - 1 } }) := by
  simp [get_buff_2, Buffer.get, h1, h2]

theorem put_buff_3_of_lt (item : Char) (s : State)
    (h : s.buffer_3.produced_idx < MAX_CHAR) :
    put_buff_3 item s = some { s with buffer_3 := { s.buffer_3 with
      data := fun i => if i = s.buffer_3.produced_idx then item else s.buffer_3.data i
      produced_idx := s.buffer_3.produced_idx + 1
      count := s.buffer_3.count + 1 } } := by
  simp [put_buff_3, Buffer.put, h]

theorem get_buff_3_of_pos (s : State) (h1 : s.buffer_3.count ≠ 0)
    (h2 : s.buffer_3.consumed_idx < MAX_CHAR) :
    get_buff_3 s = .ok (s.buffer_3.data s.buffer_3.consumed_idx,
      { s with buffer_3 := { s.buffer_3 with
        consumed_idx := s.buffer_3.consumed_idx + 1, count := s.buffer_3.count - 1 } }) := by
  simp [get_buff_3, Buffer.get, h1, h2]

/-! ## Buffers: an empty get, and the relation between count and indices -/

theorem get_buff_1_of_zero (s : State) (h : s.buffer_1.count = 0) :
    get_buff_1 s = .error .blocked := by
  simp [get_buff_1, Buffer.get, h]

theorem get_buff_2_of_zero (s : State) (h : s.buffer_2.count = 0) :
    get_buff_2 s = .error .blocked := by
  simp [get_buff_2, Buffer.get, h]

theorem get_buff_3_of_zero (s : State) (h : s.buffer_3.count = 0) :
    get_buff_3 s = .error .blocked := by
  simp [get_buff_3, Buffer.get, h]

theorem Buffer.put_keeps_relation {b b1 : Buffer} {item : Char}
    (h : b.count + b.consumed_idx = b.produced_idx) (hp : b.put item = some b1) :
    b1.count + b1.consumed_idx = b1.produced_idx := by
  unfold Buffer.put at hp
  split at hp
  · cases hp
    show b.count + 1 + b.consumed_idx = b.produced_idx + 1
    omega
  · cases hp

theorem Buffer.get_keeps_relation {b b1 : Buffer} {item : Char}
    (h : b.count + b.consumed_idx = b.produced_idx) (hg : b.get = .ok (item, b1)) :
    b1.count + b1.consumed_idx = b1.produced_idx := by
  unfold Buffer.get at hg
  split at hg
  · cases hg
  · rename_i hc
    split at hg
    · cases hg
      show b.count - 1 + (b.consumed_idx + 1) = b.produced_idx
      omega
    · cases hg

/-! ## The output stage: runs that return -/

theorem first_block_ok :
    ∀ (k i : Nat) (line : Nat → Char) (s : State), i + (k + 1) = 80 →
      k + 1 ≤ s.buffer_3.count → s.buffer_3.consumed_idx + (k + 1) ≤ MAX_CHAR →
      ∃ s80, first_block (k + 1) i line s = .ok s80 ∧
        s80.buffer_3.consumed_idx = s.buffer_3.consumed_idx + (k + 1) ∧
        s80.buffer_3.count + (k + 1) = s.buffer_3.count ∧
        s80.buffer_3.produced_idx = s.buffer_3.produced_idx := by
  intro k
  induction k with
  | zero =>
    intro i line s hi hc hx
    have h79 : i = 79 := by omega
    rw [first_block, get_buff_3_of_pos s (by omega) (by omega)]
    simp only [h79, if_true]
    exact ⟨_, rfl, rfl, by show s.buffer_3.count - 1 + (0 + 1) = _; omega, rfl⟩
  | succ k ih =>
    intro i line s hi hc hx
    have h79 : i ≠ 79 := by omega
    rw [first_block, get_buff_3_of_pos s (by omega) (by omega)]
    simp only [h79, if_false]
    obtain ⟨s80, h1, h2, h3, h4⟩ := ih (i + 1)
      (store line i (s.buffer_3.data s.buffer_3.consumed_idx))
      { s with buffer_3 := { s.buffer_3 with
          consumed_idx := s.buffer_3.consumed_idx + 1, count := s.buffer_3.count - 1 } }
      (by omega) (by simp only []; omega) (by simp only []; omega)
    refine ⟨s80, h1, ?_, ?_, ?_⟩
    · rw [h2]; simp only []; omega
    · simp only [] at h3; omega
    · rw [h4]

theorem write_output_loop_finished (fn : Char) :
    ∀ (fuel i : Nat) (line : Nat → Char) (s : State), 80 ≤ i →
      (write_output_loop fn fuel i line s).1 = .finished := by
  intro fuel
  induction fuel with
  | zero => intro i line s _; rfl
  | succ n ih =>
    intro i line s hi
    rw [write_output_loop]
    dsimp only
    rw [if_neg (by omega)]
    split
    · exact ih _ _ _ (by omega)
    · exact ih _ _ _ (by omega)

/-- With at least 80 items waiting in `buffer_3` inside the array, `write_output` makes
80 gets and returns. -/
theorem write_output_finishes (fn : Char) (s : State) (h1 : 80 ≤ s.buffer_3.count)
    (h2 : s.buffer_3.consumed_idx + 80 ≤ MAX_CHAR) :
    (write_output fn s).1 = .finished ∧
      (write_output fn s).2.buffer_3.consumed_idx = s.buffer_3.consumed_idx + 80 ∧
      (write_output fn s).2.buffer_3.count + 80 = s.buffer_3.count ∧
      (write_output fn s).2.buffer_3.produced_idx = s.buffer_3.produced_idx := by
  obtain ⟨s80, hf, ha, hb, hc⟩ := first_block_ok 79 0 (fun _ => NUL) s rfl h1 h2
  have h : write_output fn s = write_output_loop fn 920 80 (fun _ => NUL) s80 := by
    unfold write_output
    rw [show MAX_CHAR = 920 + (79 + 1) from rfl,
      write_output_loop_first_block fn 79 920 0 _ s rfl, hf]
  rw [h, write_output_loop_buffer_3 fn _ _ _ _ (Nat.le_refl 80)]
  exact ⟨write_output_loop_finished fn _ _ _ _ (Nat.le_refl 80), ha, hb, hc⟩

/-! ## A sequence put into `buffer_2` -/

theorem puts_2_spec : ∀ (l : List Char) (s : State),
    s.buffer_2.produced_idx + l.length ≤ MAX_CHAR →
    ∃ s1, puts_2 l s = some s1 ∧ s1.buffer_3 = s.buffer_3 ∧
      s1.buffer_2.count = s.buffer_2.count + l.length ∧
      s1.buffer_2.produced_idx = s.buffer_2.produced_idx + l.length ∧
      s1.buffer_2.consumed_idx = s.buffer_2.consumed_idx ∧
      ∀ i, s1.buffer_2.data i =
        if i < s.buffer_2.produced_idx then s.buffer_2.data i
        else l.getD (i - s.buffer_2.produced_idx) (s.buffer_2.data i) := by
  intro l
  induction l with
  | nil => intro s _; exact ⟨s, rfl, rfl, rfl, rfl, rfl, fun i => by simp⟩
  | cons c r ih =>
    intro s h
    simp only [List.length_cons] at h
    obtain ⟨s1, h1, h3, hc, hp, hq, hd⟩ := ih
      { s with buffer_2 := { s.buffer_2 with
          data := fun i => if i = s.buffer_2.produced_idx then c else s.buffer_2.data i
          produced_idx := s.buffer_2.produced_idx + 1
          count := s.buffer_2.count + 1 } } (by simp only []; omega)
    refine ⟨s1, ?_, h3, ?_, ?_, hq, ?_⟩
    · unfold puts_2 at h1 ⊢
      rw [List.foldlM_cons, put_buff_2_of_lt c s (by omega)]
      exact h1
    · rw [hc]; simp only [List.length_cons]; omega
    · rw [hp]; simp only [List.length_cons]; omega
    · intro i
      rw [hd i]
      simp only []
      by_cases h1 : i < s.buffer_2.produced_idx
      · rw [if_pos (by omega), if_neg (by omega), if_pos h1]
      · by_cases h2 : i = s.buffer_2.produced_idx
        · subst h2; simp
        · rw [if_neg (by omega), if_neg h2, if_neg h1]
          obtain ⟨m, hm⟩ : ∃ m, i - s.buffer_2.produced_idx = m + 1 := ⟨i - s.buffer_2.produced_idx - 1, by omega⟩
          rw [hm, show i - (s.buffer_2.produced_idx + 1) = m by omega]
          simp

/-! ## The loops as the source runs them

No test against a string literal holds, so `stop_processing` is false on every input and
each iteration of the loops of `separate_line` and `plusChange` takes the branch that puts
the item it got. -/

theorem stop_processing_false (letter : Nat → Char) (idx : Nat) :
    stop_processing letter idx = false := rfl

theorem get_input_loop_succ (character : Nat → Char) (fuel i : Nat) (s : State) :
    get_input_loop character (fuel + 1) i s =
      match put_buff_1 (character i) s with
      | none => (.outOfBounds, s)
      | some s1 => get_input_loop character fuel (i + 1) s1 := rfl

theorem separate_line_loop_succ (space : Char) (fuel : Nat) (s : State) :
    separate_line_loop space (fuel + 1) s =
      match get_buff_1 s with
      | .error e => (e, s)
      | .ok (item, s1) =>
        match put_buff_2 item s1 with
        | none => (.outOfBounds, s1)
        | some s2 => separate_line_loop space fuel s2 := rfl

theorem plusChange_loop_succ (exp : Char) (fuel : Nat) (s : State) :
    plusChange_loop exp (fuel + 1) s =
      match get_buff_2 s with
      | .error e => (e, s)
      | .ok (item, s1) =>
        match put_buff_3 item s1 with
        | none => (.outOfBounds, s1)
        | some s2 => plusChange_loop exp fuel s2 := rfl

/-! ## The first three stages from the start state -/

theorem andThen_finished (s : State) (stage : State → Status × State) :
    andThen (.finished, s) stage = stage s := rfl

theorem staged_zero (character : Nat → Char) : staged character 0 0 0 = init := by
  simp [staged, init, Buffer.empty]

theorem get_input_loop_staged (character : Nat → Char) (fuel n : Nat) (hn : n < MAX_CHAR) :
    get_input_loop character (fuel + 1) n (staged character n 0 0)
      = get_input_loop character fuel (n + 1) (staged character (n + 1) 0 0) := by
  rw [get_input_loop_succ, put_buff_1_of_lt _ _ (by show n < MAX_CHAR; exact hn)]
  simp only []
  congr 1
  simp only [staged, init]
  congr 2
  funext j
  by_cases h1 : j = n
  · subst h1; simp
  · by_cases h2 : j < n
    · simp [h1, h2, Nat.lt_succ_of_lt h2]
    · have h3 : ¬ j < n + 1 := by omega
      simp [h1, h2, h3]

theorem get_input_loop_run (character : Nat → Char) :
    ∀ (k n : Nat), n + k ≤ MAX_CHAR →
      get_input_loop character k n (staged character n 0 0)
        = (.finished, staged character (n + k) 0 0) := by
  intro k
  induction k with
  | zero => intro n _; rfl
  | succ k ih =>
    intro n h
    rw [get_input_loop_staged character k n (by omega), ih (n + 1) (by omega),
      show n + 1 + k = n + (k + 1) by omega]

theorem get_input_eq (character : Nat → Char) :
    get_input character init = (.finished, staged character MAX_CHAR 0 0) := by
  have h := get_input_loop_run character MAX_CHAR 0 (by omega)
  rw [staged_zero, Nat.zero_add] at h
  exact h

theorem separate_line_loop_staged (space : Char) (character : Nat → Char) (fuel n a : Nat)
    (ha : a < n) (hn : n ≤ MAX_CHAR) :
    separate_line_loop space (fuel + 1) (staged character n a 0)
      = separate_line_loop space fuel (staged character n (a + 1) 0) := by
  rw [separate_line_loop_succ, get_buff_1_of_pos _ (by show n - a ≠ 0; omega)
    (by show a < MAX_CHAR; omega)]
  simp only []
  rw [put_buff_2_of_lt _ _ (by show a < MAX_CHAR; omega)]
  simp only []
  congr 1
  simp only [staged, init]
  congr 2
  funext i
  by_cases h1 : i = a
  · subst h1; simp [ha]
  · by_cases h2 : i < a
    · simp [h1, h2, Nat.lt_succ_of_lt h2]
    · have h3 : ¬ i < a + 1 := by omega
      simp [h1, h2, h3]

theorem separate_line_loop_run (space : Char) (character : Nat → Char) (n : Nat)
    (hn : n ≤ MAX_CHAR) :
    ∀ (k a : Nat), a + k ≤ n →
      separate_line_loop space k (staged character n a 0)
        = (.finished, staged character n (a + k) 0) := by
  intro k
  induction k with
  | zero => intro a _; rfl
  | succ k ih =>
    intro a h
    rw [separate_line_loop_staged space character k n a (by omega) hn, ih (a + 1) (by omega),
      show a + 1 + k = a + (k + 1) by omega]

theorem plusChange_loop_staged (exp : Char) (character : Nat → Char) (fuel n a b : Nat)
    (hb : b < a) (ha : a ≤ MAX_CHAR) :
    plusChange_loop exp (fuel + 1) (staged character n a b)
      = plusChange_loop exp fuel (staged character n a (b + 1)) := by
  rw [plusChange_loop_succ, get_buff_2_of_pos _ (by show a - b ≠ 0; omega)
    (by show b < MAX_CHAR; omega)]
  simp only []
  rw [put_buff_3_of_lt _ _ (by show b < MAX_CHAR; omega)]
  simp only []
  congr 1
  simp only [staged, init]
  congr 2
  funext i
  by_cases h1 : i = b
  · subst h1; simp [hb]
  · by_cases h2 : i < b
    · simp [h1, h2, Nat.lt_succ_of_lt h2]
    · have h3 : ¬ i < b + 1 := by omega
      simp [h1, h2, h3]

theorem plusChange_loop_run (exp : Char) (character : Nat → Char) (n a : Nat)
    (ha : a ≤ MAX_CHAR) :
    ∀ (k b : Nat), b + k ≤ a →
      plusChange_loop exp k (staged character n a b)
        = (.finished, staged character n a (b + k)) := by
  intro k
  induction k with
  | zero => intro b _; rfl
  | succ k ih =>
    intro b h
    rw [plusChange_loop_staged exp character k n a b (by omega) ha, ih (b + 1) (by omega),
      show b + 1 + k = b + (k + 1) by omega]

theorem separate_line_after_get_input (space : Char) (character : Nat → Char) :
    andThen (get_input character init) (separate_line space)
      = (.finished, staged character MAX_CHAR MAX_CHAR 0) := by
  rw [get_input_eq, andThen_finished]
  have h := separate_line_loop_run space character MAX_CHAR (Nat.le_refl _) MAX_CHAR 0
    (by omega)
  rw [Nat.zero_add] at h
  exact h

theorem upstream_eq (space exp : Char) (character : Nat → Char) :
    upstream space exp character
      = (.finished, staged character MAX_CHAR MAX_CHAR MAX_CHAR) := by
  unfold upstream
  rw [separate_line_after_get_input, andThen_finished]
  have h := plusChange_loop_run exp character MAX_CHAR MAX_CHAR (Nat.le_refl _) MAX_CHAR 0
    (by omega)
  rw [Nat.zero_add] at h
  exact h

/-! ## The line separator and the plus sign stage from any state -/

/-- From any state whose waiting items of `buffer_1` lie inside the array and fit into
`buffer_2`, the loop of `separate_line` with at least as many iterations takes all of
them and puts each into `buffer_2` as it is. -/
theorem separate_line_loop_forward (space : Char) :
    ∀ (fuel : Nat) (s : State), s.buffer_1.count ≤ fuel →
      s.buffer_1.consumed_idx + s.buffer_1.count ≤ MAX_CHAR →
      s.buffer_2.produced_idx + s.buffer_1.count ≤ MAX_CHAR →
      (separate_line_loop space fuel s).1
          = (if s.buffer_1.count = fuel then .finished else .blocked) ∧
        (separate_line_loop space fuel s).2.buffer_2.contents
          = s.buffer_2.contents ++ s.buffer_1.pending ∧
        (separate_line_loop space fuel s).2.buffer_1.count = 0 ∧
        (separate_line_loop space fuel s).2.buffer_1.consumed_idx
          = s.buffer_1.consumed_idx + s.buffer_1.count := by
  intro fuel
  induction fuel with
  | zero =>
    intro s h0 _ _
    have hc : s.buffer_1.count = 0 := by omega
    simp [separate_line_loop, Buffer.pending, hc]
  | succ n ih =>
    intro s hf h1 h2
    rw [separate_line_loop_succ]
    cases hc : s.buffer_1.count with
    | zero => simp [get_buff_1, Buffer.get, hc, Buffer.pending]
    | succ c =>
      rw [get_buff_1_of_pos s (by omega) (by omega)]
      simp only []
      rw [put_buff_2_of_lt _ _ (by show s.buffer_2.produced_idx < MAX_CHAR; omega)]
      simp only []
      obtain ⟨hs, ha, hb, hd⟩ := ih { s with
          buffer_1 := { s.buffer_1 with
            consumed_idx := s.buffer_1.consumed_idx + 1, count := s.buffer_1.count - 1 }
          buffer_2 := { s.buffer_2 with
            data := fun i => if i = s.buffer_2.produced_idx then
              s.buffer_1.data s.buffer_1.consumed_idx else s.buffer_2.data i
            produced_idx := s.buffer_2.produced_idx + 1
            count := s.buffer_2.count + 1 } }
        (by simp only []; omega) (by simp only []; omega) (by simp only []; omega)
      refine ⟨?_, ?_, hb, ?_⟩
      · rw [hs]
        simp only [hc, Nat.add_sub_cancel, Nat.add_right_cancel_iff]
      · rw [ha, Buffer.pending_succ s.buffer_1 c hc]
        simp only [Buffer.contents]
        rw [Buffer.contents_put_data s.buffer_2]
        simp [Buffer.contents]
      · rw [hd]; simp only []; omega

/-- From any state whose waiting items of `buffer_2` lie inside the array and fit into
`buffer_3`, the loop of `plusChange` with at least as many iterations takes all of them
and puts each into `buffer_3` as it is. -/
theorem plusChange_loop_forward (exp : Char) :
    ∀ (fuel : Nat) (s : State), s.buffer_2.count ≤ fuel →
      s.buffer_2.consumed_idx + s.buffer_2.count ≤ MAX_CHAR →
      s.buffer_3.produced_idx + s.buffer_2.count ≤ MAX_CHAR →
      (plusChange_loop exp fuel s).1
          = (if s.buffer_2.count = fuel then .finished else .blocked) ∧
        (plusChange_loop exp fuel s).2.buffer_3.contents
          = s.buffer_3.contents ++ s.buffer_2.pending ∧
        (plusChange_loop exp fuel s).2.buffer_2.count = 0 ∧
        (plusChange_loop exp fuel s).2.buffer_2.consumed_idx
          = s.buffer_2.consumed_idx + s.buffer_2.count := by
  intro fuel
  induction fuel with
  | zero =>
    intro s h0 _ _
    have hc : s.buffer_2.count = 0 := by omega
    simp [plusChange_loop, Buffer.pending, hc]
  | succ n ih =>
    intro s hf h1 h2
    rw [plusChange_loop_succ]
    cases hc : s.buffer_2.count with
    | zero => simp [get_buff_2, Buffer.get, hc, Buffer.pending]
    | succ c =>
      rw [get_buff_2_of_pos s (by omega) (by omega)]
      simp only []
      rw [put_buff_3_of_lt _ _ (by show s.buffer_3.produced_idx < MAX_CHAR; omega)]
      simp only []
      obtain ⟨hs, ha, hb, hd⟩ := ih { s with
          buffer_2 := { s.buffer_2 with
            consumed_idx := s.buffer_2.consumed_idx + 1, count := s.buffer_2.count - 1 }
          buffer_3 := { s.buffer_3 with
            data := fun i => if i = s.buffer_3.produced_idx then
              s.buffer_2.data s.buffer_2.consumed_idx else s.buffer_3.data i
            produced_idx := s.buffer_3.produced_idx + 1
            count := s.buffer_3.count + 1 } }
        (by simp only []; omega) (by simp only []; omega) (by simp only []; omega)
      refine ⟨?_, ?_, hb, ?_⟩
      · rw [hs]
        simp only [hc, Nat.add_sub_cancel, Nat.add_right_cancel_iff]
      · rw [ha, Buffer.pending_succ s.buffer_2 c hc]
        simp only [Buffer.contents]
        rw [Buffer.contents_put_data s.buffer_3]
        simp [Buffer.contents]
      · rw [hd]; simp only []; omega

theorem puts_2_pending (l : List Char) (hl : l.length ≤ MAX_CHAR) :
    ∃ s1, puts_2 l init = some s1 ∧ s1.buffer_2.pending = l ∧
      s1.buffer_2.count = l.length ∧ s1.buffer_2.consumed_idx = 0 ∧
      s1.buffer_3 = Buffer.empty := by
  obtain ⟨s1, h1, h3, hc, hp, hq, hd⟩ := puts_2_spec l init
    (by simp [init, Buffer.empty]; omega)
  simp only [init, Buffer.empty, Nat.zero_add, Nat.not_lt_zero, if_false, Nat.sub_zero]
    at h3 hc hp hq hd
  refine ⟨s1, h1, ?_, hc, hq, h3⟩
  unfold Buffer.pending
  rw [hc, hq]
  apply List.ext_getElem
  · simp
  · intro j h1 h2
    simp only [List.getElem_map, List.getElem_range, Nat.zero_add]
    rw [hd j, List.getD_eq_getElem _ _ h2]

theorem plusChange_on_eq (exp : Char) (l : List Char) (hl : l.length ≤ MAX_CHAR) :
    plusChange_on exp l
      = some (if l.length = MAX_CHAR then .finished else .blocked, l) := by
  obtain ⟨s1, h1, hp, hc, hq, h3⟩ := puts_2_pending l hl
  obtain ⟨hs, ha, -, -⟩ := plusChange_loop_forward exp MAX_CHAR s1 (by omega) (by omega)
    (by rw [h3]; simp only [Buffer.empty]; omega)
  unfold plusChange_on
  rw [h1]
  simp only [Option.map_some', plusChange]
  rw [hs, ha, hp, h3, hc]
  simp [Buffer.contents, Buffer.empty]

/-! ## The flag `end_processing`: lemmas -/

theorem put_buff_1_end_processing {item : Char} {s s1 : State}
    (h : put_buff_1 item s = some s1) : s1.end_processing = s.end_processing := by
  unfold put_buff_1 at h
  cases hb : s.buffer_1.put item with
  | none => rw [hb] at h; cases h
  | some b => rw [hb] at h; cases h; rfl

theorem put_buff_2_end_processing {item : Char} {s s1 : State}
    (h : put_buff_2 item s = some s1) : s1.end_processing = s.end_processing := by
  unfold put_buff_2 at h
  cases hb : s.buffer_2.put item with
  | none => rw [hb] at h; cases h
  | some b => rw [hb] at h; cases h; rfl

theorem put_buff_3_end_processing {item : Char} {s s1 : State}
    (h : put_buff_3 item s = some s1) : s1.end_processing = s.end_processing := by
  unfold put_buff_3 at h
  cases hb : s.buffer_3.put item with
  | none => rw [hb] at h; cases h
  | some b => rw [hb] at h; cases h; rfl

theorem get_buff_1_end_processing {item : Char} {s s1 : State}
    (h : get_buff_1 s = .ok (item, s1)) : s1.end_processing = s.end_processing := by
  unfold get_buff_1 at h
  split at h
  · cases h
  · cases h; rfl

theorem get_buff_2_end_processing {item : Char} {s s1 : State}
    (h : get_buff_2 s = .ok (item, s1)) : s1.end_processing = s.end_processing := by
  unfold get_buff_2 at h
  split at h
  · cases h
  · cases h; rfl

theorem get_buff_3_end_processing {item : Char} {s s1 : State}
    (h : get_buff_3 s = .ok (item, s1)) : s1.end_processing = s.end_processing := by
  unfold get_buff_3 at h
  split at h
  · cases h
  · cases h; rfl

theorem write_output_loop_end_processing (fn : Char) :
    ∀ (fuel i : Nat) (line : Nat → Char) (s : State),
      (write_output_loop fn fuel i line s).2.end_processing = s.end_processing := by
  intro fuel
  induction fuel with
  | zero => intro i line s; rfl
  | succ n ih =>
    intro i line s
    rw [write_output_loop]
    dsimp only
    split
    · split
      · rfl
      · rename_i item s1 hg
        have h1 := get_buff_3_end_processing hg
        split
        · rw [ih]; exact h1
        · rw [ih]; exact h1
    · split
      · rw [ih]
      · rw [ih]

theorem get_input_loop_end_processing (character : Nat → Char) :
    ∀ (fuel i : Nat) (s : State),
      (get_input_loop character fuel i s).2.end_processing = s.end_processing := by
  intro fuel
  induction fuel with
  | zero => intro i s; rfl
  | succ n ih =>
    intro i s
    rw [get_input_loop_succ]
    cases hp : put_buff_1 (character i) s with
    | none => rfl
    | some s1 =>
      simp only []
      rw [ih (i + 1) s1, put_buff_1_end_processing hp]

theorem separate_line_loop_end_processing (space : Char) :
    ∀ (fuel : Nat) (s : State),
      (separate_line_loop space fuel s).2.end_processing = s.end_processing := by
  intro fuel
  induction fuel with
  | zero => intro s; rfl
  | succ n ih =>
    intro s
    rw [separate_line_loop_succ]
    cases hg : get_buff_1 s with
    | error e => rfl
    | ok p =>
      obtain ⟨item, s1⟩ := p
      simp only []
      cases hp : put_buff_2 item s1 with
      | none => exact get_buff_1_end_processing hg
      | some s2 =>
        simp only []
        rw [ih s2, put_buff_2_end_processing hp, get_buff_1_end_processing hg]

theorem plusChange_loop_end_processing (exp : Char) :
    ∀ (fuel : Nat) (s : State),
      (plusChange_loop exp fuel s).2.end_processing = s.end_processing := by
  intro fuel
  induction fuel with
  | zero => intro s; rfl
  | succ n ih =>
    intro s
    rw [plusChange_loop_succ]
    cases hg : get_buff_2 s with
    | error e => rfl
    | ok p =>
      obtain ⟨item, s1⟩ := p
      simp only []
      cases hp : put_buff_3 item s1 with
      | none => exact get_buff_2_end_processing hg
      | some s2 =>
        simp only []
        rw [ih s2, put_buff_3_end_processing hp, get_buff_2_end_processing hg]

/-! ## The relation between count and indices along the loop of `plusChange` -/

theorem get_buff_2_keeps_relation {s s1 : State} {item : Char}
    (h : s.buffer_2.count + s.buffer_2.consumed_idx = s.buffer_2.produced_idx)
    (hg : get_buff_2 s = .ok (item, s1)) :
    s1.buffer_2.count + s1.buffer_2.consumed_idx = s1.buffer_2.produced_idx ∧
      s1.buffer_3 = s.buffer_3 := by
  unfold get_buff_2 at hg
  cases hb : s.buffer_2.get with
  | error e => rw [hb] at hg; cases hg
  | ok p =>
    obtain ⟨c, b⟩ := p
    rw [hb] at hg
    cases hg
    exact ⟨Buffer.get_keeps_relation h hb, rfl⟩

theorem put_buff_3_keeps_relation {s s1 : State} {item : Char}
    (h : s.buffer_3.count + s.buffer_3.consumed_idx = s.buffer_3.produced_idx)
    (hp : put_buff_3 item s = some s1) :
    s1.buffer_3.count + s1.buffer_3.consumed_idx = s1.buffer_3.produced_idx ∧
      s1.buffer_2 = s.buffer_2 := by
  unfold put_buff_3 at hp
  cases hb : s.buffer_3.put item with
  | none => rw [hb] at hp; cases hp
  | some b =>
    rw [hb] at hp
    cases hp
    exact ⟨Buffer.put_keeps_relation h hb, rfl⟩

theorem plusChange_loop_keeps_relation (exp : Char) :
    ∀ (fuel : Nat) (s : State),
      s.buffer_2.count + s.buffer_2.consumed_idx = s.buffer_2.produced_idx →
      s.buffer_3.count + s.buffer_3.consumed_idx = s.buffer_3.produced_idx →
      (plusChange_loop exp fuel s).2.buffer_2.count
          + (plusChange_loop exp fuel s).2.buffer_2.consumed_idx
        = (plusChange_loop exp fuel s).2.buffer_2.produced_idx ∧
      (plusChange_loop exp fuel s).2.buffer_3.count
          + (plusChange_loop exp fuel s).2.buffer_3.consumed_idx
        = (plusChange_loop exp fuel s).2.buffer_3.produced_idx := by
  intro fuel
  induction fuel with
  | zero => intro s h2 h3; exact ⟨h2, h3⟩
  | succ n ih =>
    intro s h2 h3
    rw [plusChange_loop_succ]
    cases hg : get_buff_2 s with
    | error e => exact ⟨h2, h3⟩
    | ok p =>
      obtain ⟨item, s1⟩ := p
      obtain ⟨g2, g3⟩ := get_buff_2_keeps_relation h2 hg
      simp only []
      cases hp : put_buff_3 item s1 with
      | none => exact ⟨g2, by rw [g3]; exact h3⟩
      | some s2 =>
        obtain ⟨p3, p2⟩ := put_buff_3_keeps_relation (by rw [g3]; exact h3) hp
        simp only []
        exact ih s2 (by rw [p2]; exact g2) p3

/-! ## Lock events: lemmas -/

theorem get_input_events_locked (character : Nat → Char) :
    ∀ (fuel i : Nat) (s : State),
      unlocked_accesses [] (get_input_events character fuel i s) = [] := by
  intro fuel
  induction fuel with
  | zero => intro i s; rfl
  | succ n ih =>
    intro i s
    rw [get_input_events]
    cases hp : put_buff_1 (character i) s with
    | none => rfl
    | some s1 =>
      simp only [stop_processing_false]
      have := ih (i + 1) s1
      simpa [put_events, unlocked_accesses] using this

theorem separate_line_events_locked (space : Char) :
    ∀ (fuel : Nat) (s : State),
      unlocked_accesses [] (separate_line_events space fuel s) = [] := by
  intro fuel
  induction fuel with
  | zero => intro s; rfl
  | succ n ih =>
    intro s
    rw [separate_line_events]
    cases hg : get_buff_1 s with
    | error e => cases e <;> rfl
    | ok p =>
      obtain ⟨item, s1⟩ := p
      simp only [eq_literal]
      cases hp : put_buff_2 item s1 with
      | none => rfl
      | some s2 =>
        have := ih s2
        simpa [get_events, put_events, unlocked_accesses] using this

theorem plusChange_events_locked (exp : Char) :
    ∀ (fuel : Nat) (s : State),
      unlocked_accesses [] (plusChange_events exp fuel s) = [] := by
  intro fuel
  induction fuel with
  | zero => intro s; rfl
  | succ n ih =>
    intro s
    rw [plusChange_events]
    cases hg : get_buff_2 s with
    | error e => cases e <;> rfl
    | ok p =>
      obtain ⟨item, s1⟩ := p
      simp only [eq_literal]
      cases hp : put_buff_3 item s1 with
      | none => rfl
      | some s2 =>
        have := ih s2
        simpa [get_events, put_events, unlocked_accesses] using this

theorem write_output_events_locked :
    ∀ (fuel i : Nat) (s : State),
      unlocked_accesses [] (write_output_events fuel i s) = [] := by
  intro fuel
  induction fuel with
  | zero => intro i s; rfl
  | succ n ih =>
    intro i s
    rw [write_output_events]
    split
    · cases hg : get_buff_3 s with
      | error e => cases e <;> rfl
      | ok p =>
        obtain ⟨item, s1⟩ := p
        have := ih (i + 1) s1
        simpa [get_events, unlocked_accesses] using this
    · exact ih (i + 1) s

/-! ## The machine of the specification on a sequence without adjacent plus signs -/

theorem noAdjacentPlus_tail {c : Char} {rest : List Char}
    (h : noAdjacentPlus (c :: rest) = true) : noAdjacentPlus rest = true := by
  cases rest with
  | nil => rfl
  | cons d r =>
    simp only [noAdjacentPlus, Bool.and_eq_true] at h
    exact h.2

theorem collapse_from_of_noAdjacentPlus :
    ∀ l : List Char,
      (noAdjacentPlus l = true → collapse_from .NORMAL l = l) ∧
      (noAdjacentPlus ('+' :: l) = true → collapse_from .SEEN_PLUS l = '+' :: l) := by
  intro l
  induction l with
  | nil => exact ⟨fun _ => rfl, fun _ => rfl⟩
  | cons c rest ih =>
    refine ⟨?_, ?_⟩
    · intro h
      rw [collapse_from]
      by_cases hc : c = '+'
      · rw [if_pos hc]
        subst hc
        exact ih.2 h
      · rw [if_neg hc, ih.1 (noAdjacentPlus_tail h)]
    · intro h
      have hc : c ≠ '+' := by
        intro hc
        subst hc
        simp [noAdjacentPlus] at h
      rw [collapse_from, if_neg hc, ih.1 (noAdjacentPlus_tail (noAdjacentPlus_tail h))]

theorem collapse_of_noAdjacentPlus (l : List Char) (h : noAdjacentPlus l = true) :
    collapse l = l :=
  (collapse_from_of_noAdjacentPlus l).1 h

/-! ## The contents of `buffer_1` after the input stage -/

theorem ofText_append_left (t u : List Char) (j : Nat) (h : j < t.length) :
    ofText (t ++ u) j = t.getD j NUL := by
  simp [ofText, List.getD_eq_getElem?_getD, List.getElem?_append_left h]

theorem range_map_ofText (t u : List Char) :
    (List.range t.length).map (ofText (t ++ u)) = t := by
  apply List.ext_getElem
  · simp
  · intro j h1 h2
    simp only [List.getElem_map, List.getElem_range]
    rw [ofText_append_left t u j h2, List.getD_eq_getElem _ _ h2]

theorem staged_contents_1 (character : Nat → Char) (n a b : Nat) :
    (staged character n a b).buffer_1.contents = (List.range n).map character := by
  simp only [staged, Buffer.contents]
  apply List.map_congr_left
  intro j hj
  rw [if_pos (List.mem_range.mp hj)]

theorem get_input_contents_take (t rest : List Char) (h : t.length ≤ MAX_CHAR) :
    (get_input (ofText (t ++ rest)) init).2.buffer_1.contents.take t.length = t := by
  rw [get_input_eq]
  simp only []
  rw [staged_contents_1, ← List.map_take, List.take_range, Nat.min_eq_left h,
    range_map_ofText]

/-! ## Evaluations used below -/

set_option maxRecDepth 1000000 in
theorem twoLines_seen :
    first_block_seen (staged (ofText twoLines) MAX_CHAR MAX_CHAR MAX_CHAR)
      = some (twoLinesFirst, 80, 920) := by decide

set_option maxRecDepth 1000000 in
theorem twoLines_first_ne :
    twoLinesFirst.take 41 ≠ twoLinesExpected.take 41 := by decide

set_option maxRecDepth 1000000 in
theorem twoLinesExpected_eq_blocks :
    blocks (collapse ((twoLines.take 82).map separate)) = twoLinesExpected := by decide

set_option maxRecDepth 1000000 in
theorem stream81_seen :
    (puts_3 stream81 init).bind first_block_seen
      = some (List.replicate 80 'a' ++ ['\n'], 80, 1) := by decide

set_option maxRecDepth 1000000 in
theorem stream160_seen :
    (puts_3 stream160 init).bind first_block_seen
      = some (List.replicate 80 'a' ++ ['\n'], 80, 80) := by decide

set_option maxRecDepth 1000000 in
theorem blocks_stream160 :
    blocks stream160
      = (List.replicate 80 'a' ++ ['\n']) ++ ('b' :: 'b' :: List.replicate 78 'b' ++ ['\n']) := by
  decide

theorem write_output_on_of_seen (fn : Char) {l out : List Char} {c n : Nat}
    (h : (puts_3 l init).bind first_block_seen = some (out, c, n)) :
    ∃ extra, write_output_on fn l
        = some (out ++ (printf_line (store (fun _ => NUL) 0 fn) ++ extra)) ∧
      (puts_3 l init).map (fun s => ((write_output fn s).2.buffer_3.consumed_idx,
        (write_output fn s).2.buffer_3.count)) = some (c, n) := by
  cases hp : puts_3 l init with
  | none => rw [hp] at h; simp at h
  | some s =>
    rw [hp] at h
    obtain ⟨extra, he, hc, hn⟩ := write_output_of_seen fn (by simpa using h)
    exact ⟨extra, by simp [write_output_on, hp, he], by simp [hc, hn]⟩

/-! ## The claims -/

/-- C1, on the code as written: on the example input of the claim (40 `x`, newline,
40 `y`, newline, `STOP`, newline), whatever the bytes `space`, `exp` and `fn` are, the
first three stages return and hand the input on as it is, newlines and sentinel
included; `write_output` returns after writing the first 80 characters of the input
as they are (40 `x`, the newline of the input, 39 `y`), a newline, and more after
that. The claim asks for one line, 40 `x`, a space, 39 `y` (the blocks of the
collapsed separated text before the sentinel); the output differs from it within its
first 41 bytes. -/
theorem pipeline_twoLines_forwards_newline (space exp fn : Char) :
    (upstream space exp (ofText twoLines)).1 = .finished ∧
    (upstream space exp (ofText twoLines)).2.buffer_3.contents.take 87 = twoLines ∧
    (pipeline space exp fn (ofText twoLines)).1 = .finished ∧
    (∃ more, more ≠ [] ∧
      (pipeline space exp fn (ofText twoLines)).2.stdout = twoLinesFirst ++ more) ∧
    (pipeline space exp fn (ofText twoLines)).2.stdout.take 80 = twoLines.take 80 ∧
    blocks (collapse ((twoLines.take 82).map separate)) = twoLinesExpected ∧
    (pipeline space exp fn (ofText twoLines)).2.stdout.take 41
      ≠ twoLinesExpected.take 41 := by
  have hp : pipeline space exp fn (ofText twoLines) = write_output fn
      (staged (ofText twoLines) MAX_CHAR MAX_CHAR MAX_CHAR) := by
    unfold pipeline
    rw [upstream_eq, andThen_finished]
  obtain ⟨extra, he, -, -⟩ := write_output_of_seen fn twoLines_seen
  have hmore : printf_line (store (fun _ => NUL) 0 fn) ++ extra ≠ [] := by
    rw [printf_line_store_fn]
    split_ifs <;> simp
  refine ⟨by rw [upstream_eq], ?_, ?_, ⟨_, hmore, by rw [hp, he]⟩, ?_,
    twoLinesExpected_eq_blocks, ?_⟩
  · rw [upstream_eq]
    show List.take 87 ((List.range MAX_CHAR).map
      (fun i => if i < MAX_CHAR then ofText twoLines i else NUL)) = twoLines
    rw [← List.map_take, List.take_range]
    decide
  · rw [hp]
    exact (write_output_finishes fn _ (by decide) (by decide)).1
  · rw [hp, he, List.take_append_of_le_length (by decide)]
    decide
  · rw [hp, he, List.take_append_of_le_length (by decide)]
    exact twoLines_first_ne

/-- C2: FIFO for `buffer_1`, `buffer_2` and `buffer_3`. For every schedule of puts and
gets on the buffer of the start state that puts at most `MAX_CHAR` items and makes each
get when the count is positive, the run succeeds and the values the gets return are
the first items put, in the order they were put: as many of them as there are gets. -/
theorem fifo (ops : List Op) (hcap : (Op.puts ops).length ≤ MAX_CHAR)
    (hpos : Op.getsWhenPositive 0 ops = true) :
    run_ops put_buff_1 get_buff_1 ops init = .ok ((Op.puts ops).take (Op.gets ops)) ∧
    run_ops put_buff_2 get_buff_2 ops init = .ok ((Op.puts ops).take (Op.gets ops)) ∧
    run_ops put_buff_3 get_buff_3 ops init = .ok ((Op.puts ops).take (Op.gets ops)) := by
  refine ⟨?_, ?_, ?_⟩
  · have := run_ops_fifo put_buff_1 get_buff_1 State.buffer_1
      (fun c s h => ⟨_, put_buff_1_of_lt c s h, rfl⟩)
      (fun s h1 h2 => ⟨_, get_buff_1_of_pos s h1 h2, rfl⟩)
      ops init rfl (by simpa [init, Buffer.empty] using hcap) hpos
    simpa [init, Buffer.empty, Buffer.pending] using this
  · have := run_ops_fifo put_buff_2 get_buff_2 State.buffer_2
      (fun c s h => ⟨_, put_buff_2_of_lt c s h, rfl⟩)
      (fun s h1 h2 => ⟨_, get_buff_2_of_pos s h1 h2, rfl⟩)
      ops init rfl (by simpa [init, Buffer.empty] using hcap) hpos
    simpa [init, Buffer.empty, Buffer.pending] using this
  · have := run_ops_fifo put_buff_3 get_buff_3 State.buffer_3
      (fun c s h => ⟨_, put_buff_3_of_lt c s h, rfl⟩)
      (fun s h1 h2 => ⟨_, get_buff_3_of_pos s h1 h2, rfl⟩)
      ops init rfl (by simpa [init, Buffer.empty] using hcap) hpos
    simpa [init, Buffer.empty, Buffer.pending] using this

/-- C2 at the schedule put `a`, put `b`, get, put `c`, get, get: the gets return
`a`, `b`, `c`. -/
theorem fifo_witness :
    ((Op.puts fifoExample).length ≤ MAX_CHAR ∧ Op.getsWhenPositive 0 fifoExample = true) ∧
    (Op.puts fifoExample).take (Op.gets fifoExample) = ['a', 'b', 'c'] ∧
    run_ops put_buff_1 get_buff_1 fifoExample init
      = .ok ((Op.puts fifoExample).take (Op.gets fifoExample)) ∧
    run_ops put_buff_2 get_buff_2 fifoExample init
      = .ok ((Op.puts fifoExample).take (Op.gets fifoExample)) ∧
    run_ops put_buff_3 get_buff_3 fifoExample init
      = .ok ((Op.puts fifoExample).take (Op.gets fifoExample)) :=
  ⟨⟨by decide, by decide⟩, by decide, fifo fifoExample (by decide) (by decide)⟩


/-- C3, on the code as written: with `a`, newline, `b` waiting in `buffer_1`,
`separate_line` puts `a`, newline, `b` into `buffer_2`, whatever the byte `space` is:
the newline is handed on as it is, where the claim asks for `a`, space, `b`. -/
theorem separate_line_forwards_newline (space : Char) :
    separateExample.buffer_1.pending = ['a', '\n', 'b'] ∧
    (separate_line space separateExample).2.buffer_2.contents = ['a', '\n', 'b'] ∧
    '\n' ∈ (separate_line space separateExample).2.buffer_2.contents ∧
    separateExample.buffer_1.pending.map separate = ['a', ' ', 'b'] := by
  have hp : separateExample.buffer_1.pending = ['a', '\n', 'b'] := by decide
  obtain ⟨-, ha, -, -⟩ := separate_line_loop_forward space MAX_CHAR separateExample
    (by decide) (by decide) (by decide)
  have hc : (separate_line space separateExample).2.buffer_2.contents
      = ['a', '\n', 'b'] := by
    unfold separate_line
    rw [ha, hp]
    rfl
  refine ⟨hp, hc, ?_, ?_⟩
  · rw [hc]; decide
  · rw [hp]; decide

/-- C4, on the code as written: with `+++ ` in `buffer_2`, `plusChange` puts `+++ ` into
`buffer_3`, each item as it is, and then waits, whatever the byte `exp` is; the machine
of the specification gives caret, plus, space. -/
theorem plusChange_forwards_triple_plus (exp : Char) :
    plusChange_on exp ['+', '+', '+', ' '] = some (.blocked, ['+', '+', '+', ' ']) ∧
    collapse ['+', '+', '+', ' '] = ['^', '+', ' '] := by
  refine ⟨?_, by decide⟩
  rw [plusChange_on_eq exp _ (by decide)]
  rfl

/-- C5: `plusChange`, started with the items of `buffer_2` that wait to be got inside
the array and with room for as many in `buffer_3`, no two plus signs among them being
adjacent, gets all of them and puts them into `buffer_3`, after what it held, in the
same order and each as it is, whatever the byte `exp` is. The machine of the
specification leaves such a sequence as it is too. -/
theorem plusChange_forwards_lone_plus (exp : Char) (s : State)
    (h1 : s.buffer_2.consumed_idx + s.buffer_2.count ≤ MAX_CHAR)
    (h2 : s.buffer_3.produced_idx + s.buffer_2.count ≤ MAX_CHAR)
    (hadj : noAdjacentPlus s.buffer_2.pending = true) :
    (plusChange exp s).2.buffer_3.contents
        = s.buffer_3.contents ++ s.buffer_2.pending ∧
      (plusChange exp s).2.buffer_2.count = 0 ∧
      collapse s.buffer_2.pending = s.buffer_2.pending := by
  have hle : s.buffer_2.count ≤ MAX_CHAR := by omega
  obtain ⟨-, ha, hb, -⟩ := plusChange_loop_forward exp MAX_CHAR s hle h1 h2
  exact ⟨ha, hb, collapse_of_noAdjacentPlus _ hadj⟩

/-- C5 at `buffer_2` holding `+ + `: `buffer_3` receives `+ + `. -/
theorem plusChange_forwards_lone_plus_witness :
    (plusExample.buffer_2.consumed_idx + plusExample.buffer_2.count ≤ MAX_CHAR ∧
      plusExample.buffer_3.produced_idx + plusExample.buffer_2.count ≤ MAX_CHAR ∧
      noAdjacentPlus plusExample.buffer_2.pending = true) ∧
    plusExample.buffer_2.pending = ['+', ' ', '+', ' '] ∧
    plusExample.buffer_3.contents = [] ∧
    (plusChange someByte plusExample).2.buffer_3.contents
      = plusExample.buffer_3.contents ++ plusExample.buffer_2.pending :=
  ⟨⟨by decide, by decide, by decide⟩, by decide, by decide,
    (plusChange_forwards_lone_plus someByte plusExample (by decide) (by decide)
      (by decide)).1⟩

/-- C6, on the code as written: with `a++b ` in `buffer_2`, `plusChange` puts `a++b `
into `buffer_3`, and with `++++` it puts `++++`, each item as it is and no caret,
whatever the byte `exp` is; the claim asks for `a^b ` and `^^`, which is also what the
machine of the specification gives. -/
theorem plusChange_forwards_pairs (exp : Char) :
    plusChange_on exp ['a', '+', '+', 'b', ' ']
      = some (.blocked, ['a', '+', '+', 'b', ' ']) ∧
    plusChange_on exp ['+', '+', '+', '+'] = some (.blocked, ['+', '+', '+', '+']) ∧
    collapse ['a', '+', '+', 'b', ' '] = ['a', '^', 'b', ' '] ∧
    collapse ['+', '+', '+', '+'] = ['^', '^'] := by
  refine ⟨?_, ?_, by decide, by decide⟩
  · rw [plusChange_on_eq exp _ (by decide)]; rfl
  · rw [plusChange_on_eq exp _ (by decide)]; rfl

set_option maxRecDepth 100000 in
/-- C7 as stated fails: with the single item `^` in `buffer_2`, which holds no plus
sign and so no pair, `plusChange` puts a caret into `buffer_3`. -/
theorem plusChange_forwards_caret :
    plusChange_on someByte ['^'] = some (.blocked, ['^']) ∧
    List.count '+' ['^'] = 0 ∧
    (plusChange_on someByte ['^']).map (fun r => r.2.count '^') = some 1 := by
  decide

/-- C7, amended: `plusChange`, started with the items of `buffer_2` that wait to be got
inside the array and with room for as many in `buffer_3`, no two plus signs among them
being adjacent, adds to `buffer_3` as many carets as there are among these items,
whatever the byte `exp` is: each is an item it got and put as it is. The machine of the
specification puts as many on such a sequence. -/
theorem plusChange_caret_count (exp : Char) (s : State)
    (h1 : s.buffer_2.consumed_idx + s.buffer_2.count ≤ MAX_CHAR)
    (h2 : s.buffer_3.produced_idx + s.buffer_2.count ≤ MAX_CHAR)
    (hadj : noAdjacentPlus s.buffer_2.pending = true) :
    (plusChange exp s).2.buffer_3.contents.count '^'
        = s.buffer_3.contents.count '^' + s.buffer_2.pending.count '^' ∧
      (collapse s.buffer_2.pending).count '^' = s.buffer_2.pending.count '^' := by
  have hle : s.buffer_2.count ≤ MAX_CHAR := by omega
  obtain ⟨-, ha, -, -⟩ := plusChange_loop_forward exp MAX_CHAR s hle h1 h2
  refine ⟨?_, by rw [collapse_of_noAdjacentPlus _ hadj]⟩
  unfold plusChange
  rw [ha, List.count_append]

/-- C7 amended, at `buffer_2` holding `+^ +`: one caret in, one caret out. -/
theorem plusChange_caret_count_witness :
    (caretExample.buffer_2.consumed_idx + caretExample.buffer_2.count ≤ MAX_CHAR ∧
      caretExample.buffer_3.produced_idx + caretExample.buffer_2.count ≤ MAX_CHAR ∧
      noAdjacentPlus caretExample.buffer_2.pending = true) ∧
    caretExample.buffer_2.pending = ['+', '^', ' ', '+'] ∧
    List.count '^' caretExample.buffer_3.contents
        + List.count '^' caretExample.buffer_2.pending = 1 ∧
    (plusChange someByte caretExample).2.buffer_3.contents.count '^'
      = caretExample.buffer_3.contents.count '^'
        + caretExample.buffer_2.pending.count '^' :=
  ⟨⟨by decide, by decide, by decide⟩, by decide, by decide,
    (plusChange_caret_count someByte caretExample (by decide) (by decide)
      (by decide)).1⟩

/-- C8, on the code as written: with 81 items `a` in `buffer_3`, the first line that
`write_output` writes is 80 `a`, and the line it writes next has at most one
character, whatever byte `fn` the stored function designator yields. -/
theorem write_output_second_line_short (fn : Char) :
    ∃ line rest, line.length ≤ 1 ∧
      write_output_on fn stream81
        = some (List.replicate 80 'a' ++ '\n' :: (line ++ '\n' :: rest)) := by
  obtain ⟨extra, he, -⟩ := write_output_on_of_seen fn stream81_seen
  rw [printf_line_store_fn] at he
  by_cases h : fn = NUL
  · exact ⟨[], extra, by simp, by rw [he, if_pos h]; simp⟩
  · exact ⟨[fn], extra, by simp, by rw [he, if_neg h]; simp⟩

/-- C9, on the code as written: with 80 `a` and then 80 `b` in `buffer_3`,
`write_output` takes the first 80 items only, the 80 `b` stay in the buffer, and what
it writes is not the two lines of 80 that the claim asks for. -/
theorem write_output_leaves_second_block (fn : Char) :
    (puts_3 stream160 init).map (fun s => ((write_output fn s).2.buffer_3.consumed_idx,
        (write_output fn s).2.buffer_3.count)) = some (80, 80) ∧
    write_output_on fn stream160 ≠ some (blocks stream160) := by
  obtain ⟨extra, he, hc⟩ := write_output_on_of_seen fn stream160_seen
  refine ⟨hc, ?_⟩
  rw [he, blocks_stream160, printf_line_store_fn]
  intro heq
  have h1 := List.append_cancel_left (Option.some.inj heq)
  split_ifs at h1 <;> simp at h1


/-- C10, on the code as written: when the input starts with the sentinel line,
whatever follows it, `get_input` puts the five characters of the sentinel into
`buffer_1`; and when the input is the sentinel line alone, it goes on to the end of
its loop (`count_1` is `MAX_CHAR`) and does not set `end_processing`. -/
theorem get_input_forwards_leading_sentinel (rest : List Char) :
    (get_input (ofText (stopOnly ++ rest)) init).2.buffer_1.contents.take 5 = stopOnly ∧
    (get_input (ofText stopOnly) init).2.buffer_1.count = MAX_CHAR ∧
    (get_input (ofText stopOnly) init).2.end_processing = 0 := by
  refine ⟨get_input_contents_take stopOnly rest (by decide), ?_, ?_⟩
  · rw [get_input_eq]; rfl
  · rw [get_input_eq]; rfl

/-- C12, on the code as written: on the text `a`, newline, followed by the sentinel
line and whatever comes after it, `get_input` puts `a`, newline and then the five
characters of the sentinel into `buffer_1` and goes on to `MAX_CHAR` puts without
setting `end_processing`: what it puts is not the text alone. -/
theorem get_input_forwards_sentinel_after_text (rest : List Char) :
    shortInput = ['a', '\n'] ++ stopOnly ∧
    (get_input (ofText (shortInput ++ rest)) init).2.buffer_1.contents.take 7
      = shortInput ∧
    (get_input (ofText (shortInput ++ rest)) init).2.buffer_1.count = MAX_CHAR ∧
    (get_input (ofText (shortInput ++ rest)) init).2.end_processing = 0 ∧
    (get_input (ofText (shortInput ++ rest)) init).2.buffer_1.contents ≠ ['a', '\n'] := by
  have h7 := get_input_contents_take shortInput rest (by decide)
  refine ⟨rfl, h7, by rw [get_input_eq]; rfl, by rw [get_input_eq]; rfl, ?_⟩
  intro h
  rw [h] at h7
  exact absurd h7 (by decide)

set_option maxRecDepth 1000000 in
/-- C13 as stated fails: `fullExample` satisfies the bound with `count_1` equal to
`MAX_CHAR`, and `put_buff_1` on it enqueues and leaves `count_1` at `MAX_CHAR + 1`.
On the full buffer reached from the start state by `MAX_CHAR` puts, one more
`put_buff_1` does not wait either: it indexes the array at `MAX_CHAR`. -/
theorem put_buff_on_full_buffer :
    fullExample.buffer_1.count = MAX_CHAR ∧
    (put_buff_1 'b' fullExample).map (fun s => (s.buffer_1.count, s.buffer_1.contents))
      = some (MAX_CHAR + 1, ['b']) ∧
    (puts_1 (List.replicate MAX_CHAR 'a') init).map
        (fun s => (s.buffer_1.count, s.buffer_1.produced_idx)) = some (MAX_CHAR, MAX_CHAR) ∧
    ((puts_1 (List.replicate MAX_CHAR 'a') init).bind (put_buff_1 'b')).isSome = false := by
  decide

/-- C13, amended: from any state in which the three counts are at most `MAX_CHAR`, for
each buffer: a get on an empty buffer waits and dequeues nothing; a get on a
non-empty buffer lowers the count by one, so the bound still holds; a put never
waits and raises the count by one, so the bound still holds after it when the count
was below `MAX_CHAR` (the gets and puts meant are those that index inside the
array). -/
theorem capacity_kept_below_full (s : State) (item : Char)
    (h1 : s.buffer_1.count ≤ MAX_CHAR) (h2 : s.buffer_2.count ≤ MAX_CHAR)
    (h3 : s.buffer_3.count ≤ MAX_CHAR) :
    ((s.buffer_1.count = 0 → get_buff_1 s = .error .blocked) ∧
      (s.buffer_1.count ≠ 0 → s.buffer_1.consumed_idx < MAX_CHAR →
        ∃ c s1, get_buff_1 s = .ok (c, s1) ∧ s1.buffer_1.count + 1 = s.buffer_1.count ∧
          s1.buffer_1.count ≤ MAX_CHAR) ∧
      (s.buffer_1.produced_idx < MAX_CHAR →
        ∃ s1, put_buff_1 item s = some s1 ∧ s1.buffer_1.count = s.buffer_1.count + 1 ∧
          (s.buffer_1.count < MAX_CHAR → s1.buffer_1.count ≤ MAX_CHAR))) ∧
    ((s.buffer_2.count = 0 → get_buff_2 s = .error .blocked) ∧
      (s.buffer_2.count ≠ 0 → s.buffer_2.consumed_idx < MAX_CHAR →
        ∃ c s1, get_buff_2 s = .ok (c, s1) ∧ s1.buffer_2.count + 1 = s.buffer_2.count ∧
          s1.buffer_2.count ≤ MAX_CHAR) ∧
      (s.buffer_2.produced_idx < MAX_CHAR →
        ∃ s1, put_buff_2 item s = some s1 ∧ s1.buffer_2.count = s.buffer_2.count + 1 ∧
          (s.buffer_2.count < MAX_CHAR → s1.buffer_2.count ≤ MAX_CHAR))) ∧
    ((s.buffer_3.count = 0 → get_buff_3 s = .error .blocked) ∧
      (s.buffer_3.count ≠ 0 → s.buffer_3.consumed_idx < MAX_CHAR →
        ∃ c s1, get_buff_3 s = .ok (c, s1) ∧ s1.buffer_3.count + 1 = s.buffer_3.count ∧
          s1.buffer_3.count ≤ MAX_CHAR) ∧
      (s.buffer_3.produced_idx < MAX_CHAR →
        ∃ s1, put_buff_3 item s = some s1 ∧ s1.buffer_3.count = s.buffer_3.count + 1 ∧
          (s.buffer_3.count < MAX_CHAR → s1.buffer_3.count ≤ MAX_CHAR))) := by
  refine ⟨⟨get_buff_1_of_zero s, ?_, ?_⟩, ⟨get_buff_2_of_zero s, ?_, ?_⟩,
    ⟨get_buff_3_of_zero s, ?_, ?_⟩⟩
  · intro hc hi
    exact ⟨_, _, get_buff_1_of_pos s hc hi, by show s.buffer_1.count - 1 + 1 = _; omega,
      by show s.buffer_1.count - 1 ≤ _; omega⟩
  · intro hp
    exact ⟨_, put_buff_1_of_lt item s hp, rfl, fun h => by
      show s.buffer_1.count + 1 ≤ _; omega⟩
  · intro hc hi
    exact ⟨_, _, get_buff_2_of_pos s hc hi, by show s.buffer_2.count - 1 + 1 = _; omega,
      by show s.buffer_2.count - 1 ≤ _; omega⟩
  · intro hp
    exact ⟨_, put_buff_2_of_lt item s hp, rfl, fun h => by
      show s.buffer_2.count + 1 ≤ _; omega⟩
  · intro hc hi
    exact ⟨_, _, get_buff_3_of_pos s hc hi, by show s.buffer_3.count - 1 + 1 = _; omega,
      by show s.buffer_3.count - 1 ≤ _; omega⟩
  · intro hp
    exact ⟨_, put_buff_3_of_lt item s hp, rfl, fun h => by
      show s.buffer_3.count + 1 ≤ _; omega⟩

/-- C13 amended, at the state with one item waiting in each buffer: `put_buff_1` of
`z` succeeds and `count_1` goes from 1 to 2. -/
theorem capacity_kept_below_full_witness :
    (oneEach.buffer_1.count ≤ MAX_CHAR ∧ oneEach.buffer_2.count ≤ MAX_CHAR ∧
      oneEach.buffer_3.count ≤ MAX_CHAR) ∧
    oneEach.buffer_1.produced_idx < MAX_CHAR ∧
    ∃ s1, put_buff_1 'z' oneEach = some s1 ∧
      s1.buffer_1.count = oneEach.buffer_1.count + 1 ∧
      (oneEach.buffer_1.count < MAX_CHAR → s1.buffer_1.count ≤ MAX_CHAR) :=
  ⟨⟨by decide, by decide, by decide⟩, by decide,
    (capacity_kept_below_full oneEach 'z' (by decide) (by decide) (by decide)).1.2.2
      (by decide)⟩

set_option maxRecDepth 1000000 in
/-- C14 as stated fails: in the state `flagSet`, where `end_processing` is 1 and
`buffer_1` holds `a`, `put_buff_1` of `z` succeeds: `buffer_1` then holds `a`, `z`, with
`produced_idx_1` and `count_1` at 2. -/
theorem put_buff_with_flag_set :
    flagSet.end_processing = 1 ∧
    flagSet.buffer_1.contents = ['a'] ∧
    (put_buff_1 'z' flagSet).map
        (fun s => (s.buffer_1.contents, s.buffer_1.produced_idx, s.buffer_1.count))
      = some (['a', 'z'], 2, 2) := by
  decide

/-- C14, amended: once `end_processing` is 1 no operation resets it (each `put_buff_k`
and `get_buff_k` that returns, and each of the four stages, leaves it at 1); and no
`put_buff_k` consults it: with the flag set, a put that indexes inside the array
enqueues its item after the contents and raises the produced index and the count by
one. -/
theorem end_processing_stays_set (s : State) (item : Char) (character : Nat → Char)
    (space exp fn : Char) (h : s.end_processing = 1) :
    ((∀ s1, put_buff_1 item s = some s1 → s1.end_processing = 1) ∧
      (∀ s1, put_buff_2 item s = some s1 → s1.end_processing = 1) ∧
      (∀ s1, put_buff_3 item s = some s1 → s1.end_processing = 1) ∧
      (∀ c s1, get_buff_1 s = .ok (c, s1) → s1.end_processing = 1) ∧
      (∀ c s1, get_buff_2 s = .ok (c, s1) → s1.end_processing = 1) ∧
      (∀ c s1, get_buff_3 s = .ok (c, s1) → s1.end_processing = 1) ∧
      (get_input character s).2.end_processing = 1 ∧
      (separate_line space s).2.end_processing = 1 ∧
      (plusChange exp s).2.end_processing = 1 ∧
      (write_output fn s).2.end_processing = 1) ∧
    ((s.buffer_1.produced_idx < MAX_CHAR →
        ∃ s1, put_buff_1 item s = some s1 ∧
          s1.buffer_1.contents = s.buffer_1.contents ++ [item] ∧
          s1.buffer_1.produced_idx = s.buffer_1.produced_idx + 1 ∧
          s1.buffer_1.count = s.buffer_1.count + 1) ∧
      (s.buffer_2.produced_idx < MAX_CHAR →
        ∃ s1, put_buff_2 item s = some s1 ∧
          s1.buffer_2.contents = s.buffer_2.contents ++ [item] ∧
          s1.buffer_2.produced_idx = s.buffer_2.produced_idx + 1 ∧
          s1.buffer_2.count = s.buffer_2.count + 1) ∧
      (s.buffer_3.produced_idx < MAX_CHAR →
        ∃ s1, put_buff_3 item s = some s1 ∧
          s1.buffer_3.contents = s.buffer_3.contents ++ [item] ∧
          s1.buffer_3.produced_idx = s.buffer_3.produced_idx + 1 ∧
          s1.buffer_3.count = s.buffer_3.count + 1)) := by
  refine ⟨⟨?_, ?_, ?_, ?_, ?_, ?_, ?_, ?_, ?_, ?_⟩, ?_, ?_, ?_⟩
  · intro s1 hp; exact (put_buff_1_end_processing hp).trans h
  · intro s1 hp; exact (put_buff_2_end_processing hp).trans h
  · intro s1 hp; exact (put_buff_3_end_processing hp).trans h
  · intro c s1 hg; exact (get_buff_1_end_processing hg).trans h
  · intro c s1 hg; exact (get_buff_2_end_processing hg).trans h
  · intro c s1 hg; exact (get_buff_3_end_processing hg).trans h
  · exact (get_input_loop_end_processing character MAX_CHAR 0 s).trans h
  · exact (separate_line_loop_end_processing space MAX_CHAR s).trans h
  · exact (plusChange_loop_end_processing exp MAX_CHAR s).trans h
  · exact (write_output_loop_end_processing fn MAX_CHAR 0 _ s).trans h
  · intro hp
    exact ⟨_, put_buff_1_of_lt item s hp, Buffer.contents_put_data s.buffer_1 item, rfl, rfl⟩
  · intro hp
    exact ⟨_, put_buff_2_of_lt item s hp, Buffer.contents_put_data s.buffer_2 item, rfl, rfl⟩
  · intro hp
    exact ⟨_, put_buff_3_of_lt item s hp, Buffer.contents_put_data s.buffer_3 item, rfl, rfl⟩

/-- C14 amended, at the state `flagSet`: the flag is set, it is still set after
`separate_line`, and `put_buff_1` of `z` enqueues. -/
theorem end_processing_stays_set_witness :
    flagSet.end_processing = 1 ∧
    flagSet.buffer_1.produced_idx < MAX_CHAR ∧
    (separate_line someByte flagSet).2.end_processing = 1 ∧
    ∃ s1, put_buff_1 'z' flagSet = some s1 ∧
      s1.buffer_1.contents = flagSet.buffer_1.contents ++ ['z'] ∧
      s1.buffer_1.produced_idx = flagSet.buffer_1.produced_idx + 1 ∧
      s1.buffer_1.count = flagSet.buffer_1.count + 1 :=
  ⟨by decide, by decide,
    (end_processing_stays_set flagSet 'z' (fun _ => NUL) someByte someByte someByte
      (by decide)).1.2.2.2.2.2.2.2.1,
    (end_processing_stays_set flagSet 'z' (fun _ => NUL) someByte someByte someByte
      (by decide)).2.1 (by decide)⟩

/-- C16: no access to a count or an index is made outside the mutex of its buffer:
none in the events of `put_buff_k`, `get_buff_k` and `check_next`, and none in the events
of the loops of `get_input`, `separate_line`, `plusChange` and `write_output`, for every
number of iterations, from every state and whatever the array `character` and the bytes
`space` and `exp` are. In particular `plusChange` changes `consumed_idx_2` only inside
`get_buff_2`. -/
theorem stages_access_under_mutex (character : Nat → Char) (space exp : Char)
    (fuel i k : Nat) (s : State) :
    unlocked_accesses [] (put_events k) = [] ∧
    unlocked_accesses [] (get_events k) = [] ∧
    unlocked_accesses [] (get_stopped_events k .blocked) = [] ∧
    unlocked_accesses [] check_next_events = [] ∧
    unlocked_accesses [] (get_input_events character fuel i s) = [] ∧
    unlocked_accesses [] (separate_line_events space fuel s) = [] ∧
    unlocked_accesses [] (plusChange_events exp fuel s) = [] ∧
    unlocked_accesses [] (write_output_events fuel i s) = [] :=
  ⟨by simp [put_events, unlocked_accesses], by simp [get_events, unlocked_accesses],
    by simp [get_stopped_events, unlocked_accesses], by decide,
    get_input_events_locked character fuel i s, separate_line_events_locked space fuel s,
    plusChange_events_locked exp fuel s, write_output_events_locked fuel i s⟩

/-- C17: the relation `count_k + consumed_idx_k = produced_idx_k` (so that the consumed
index is at most the produced index and the count is their difference) holds in the
start state for the three buffers, and from any state in which it holds it still
holds after `put_buff_k`, after `get_buff_k` (each of which returns when it indexes
inside the array, the get when the count is not zero), and, for `buffer_2` and
`buffer_3`, after any number of iterations of the loop of `plusChange`, whatever the
byte `exp` is. -/
theorem count_matches_indices (exp item : Char) (fuel : Nat) (s : State)
    (h1 : s.buffer_1.count + s.buffer_1.consumed_idx = s.buffer_1.produced_idx)
    (h2 : s.buffer_2.count + s.buffer_2.consumed_idx = s.buffer_2.produced_idx)
    (h3 : s.buffer_3.count + s.buffer_3.consumed_idx = s.buffer_3.produced_idx) :
    (init.buffer_1.count + init.buffer_1.consumed_idx = init.buffer_1.produced_idx ∧
      init.buffer_2.count + init.buffer_2.consumed_idx = init.buffer_2.produced_idx ∧
      init.buffer_3.count + init.buffer_3.consumed_idx = init.buffer_3.produced_idx) ∧
    ((s.buffer_1.produced_idx < MAX_CHAR → ∃ s1, put_buff_1 item s = some s1 ∧
        s1.buffer_1.count + s1.buffer_1.consumed_idx = s1.buffer_1.produced_idx) ∧
      (s.buffer_2.produced_idx < MAX_CHAR → ∃ s1, put_buff_2 item s = some s1 ∧
        s1.buffer_2.count + s1.buffer_2.consumed_idx = s1.buffer_2.produced_idx) ∧
      (s.buffer_3.produced_idx < MAX_CHAR → ∃ s1, put_buff_3 item s = some s1 ∧
        s1.buffer_3.count + s1.buffer_3.consumed_idx = s1.buffer_3.produced_idx)) ∧
    ((s.buffer_1.count ≠ 0 → s.buffer_1.consumed_idx < MAX_CHAR →
        ∃ c s1, get_buff_1 s = .ok (c, s1) ∧
          s1.buffer_1.count + s1.buffer_1.consumed_idx = s1.buffer_1.produced_idx) ∧
      (s.buffer_2.count ≠ 0 → s.buffer_2.consumed_idx < MAX_CHAR →
        ∃ c s1, get_buff_2 s = .ok (c, s1) ∧
          s1.buffer_2.count + s1.buffer_2.consumed_idx = s1.buffer_2.produced_idx) ∧
      (s.buffer_3.count ≠ 0 → s.buffer_3.consumed_idx < MAX_CHAR →
        ∃ c s1, get_buff_3 s = .ok (c, s1) ∧
          s1.buffer_3.count + s1.buffer_3.consumed_idx = s1.buffer_3.produced_idx)) ∧
    ((plusChange_loop exp fuel s).2.buffer_2.count
          + (plusChange_loop exp fuel s).2.buffer_2.consumed_idx
        = (plusChange_loop exp fuel s).2.buffer_2.produced_idx ∧
      (plusChange_loop exp fuel s).2.buffer_3.count
          + (plusChange_loop exp fuel s).2.buffer_3.consumed_idx
        = (plusChange_loop exp fuel s).2.buffer_3.produced_idx) := by
  refine ⟨⟨rfl, rfl, rfl⟩, ⟨?_, ?_, ?_⟩, ⟨?_, ?_, ?_⟩,
    plusChange_loop_keeps_relation exp fuel s h2 h3⟩
  · intro hp
    exact ⟨_, put_buff_1_of_lt item s hp, by
      show s.buffer_1.count + 1 + s.buffer_1.consumed_idx = s.buffer_1.produced_idx + 1
      omega⟩
  · intro hp
    exact ⟨_, put_buff_2_of_lt item s hp, by
      show s.buffer_2.count + 1 + s.buffer_2.consumed_idx = s.buffer_2.produced_idx + 1
      omega⟩
  · intro hp
    exact ⟨_, put_buff_3_of_lt item s hp, by
      show s.buffer_3.count + 1 + s.buffer_3.consumed_idx = s.buffer_3.produced_idx + 1
      omega⟩
  · intro hc hi
    exact ⟨_, _, get_buff_1_of_pos s hc hi, by
      show s.buffer_1.count - 1 + (s.buffer_1.consumed_idx + 1) = s.buffer_1.produced_idx
      omega⟩
  · intro hc hi
    exact ⟨_, _, get_buff_2_of_pos s hc hi, by
      show s.buffer_2.count - 1 + (s.buffer_2.consumed_idx + 1) = s.buffer_2.produced_idx
      omega⟩
  · intro hc hi
    exact ⟨_, _, get_buff_3_of_pos s hc hi, by
      show s.buffer_3.count - 1 + (s.buffer_3.consumed_idx + 1) = s.buffer_3.produced_idx
      omega⟩

set_option maxRecDepth 100000 in
/-- C17 at `++` put into `buffer_2` from the start state: the relation holds before
`plusChange` (count 2, produced index 2, consumed index 0), after its first iteration
(count 1, produced index 2, consumed index 1) and at the end (count 0, both indices
2). -/
theorem count_matches_indices_witness :
    (puts_2 ['+', '+'] init).map
        (fun s => (s.buffer_2.count, s.buffer_2.produced_idx, s.buffer_2.consumed_idx))
      = some (2, 2, 0) ∧
    (puts_2 ['+', '+'] init).map
        (fun s => ((plusChange_loop someByte 1 s).2.buffer_2.count,
          (plusChange_loop someByte 1 s).2.buffer_2.produced_idx,
          (plusChange_loop someByte 1 s).2.buffer_2.consumed_idx))
      = some (1, 2, 1) ∧
    (puts_2 ['+', '+'] init).map
        (fun s => ((plusChange someByte s).2.buffer_2.count,
          (plusChange someByte s).2.buffer_2.produced_idx,
          (plusChange someByte s).2.buffer_2.consumed_idx))
      = some (0, 2, 2) ∧
    (oneEach.buffer_1.count + oneEach.buffer_1.consumed_idx = oneEach.buffer_1.produced_idx ∧
      oneEach.buffer_2.count + oneEach.buffer_2.consumed_idx
        = oneEach.buffer_2.produced_idx ∧
      oneEach.buffer_3.count + oneEach.buffer_3.consumed_idx
        = oneEach.buffer_3.produced_idx) ∧
    (plusChange_loop someByte 1 oneEach).2.buffer_2.count
        + (plusChange_loop someByte 1 oneEach).2.buffer_2.consumed_idx
      = (plusChange_loop someByte 1 oneEach).2.buffer_2.produced_idx :=
  ⟨by decide, by decide, by decide, ⟨by decide, by decide, by decide⟩,
    (count_matches_indices someByte 'z' 1 oneEach (by decide) (by decide)
      (by decide)).2.2.2.1⟩

/-- C18: for every content of the input array and whatever the bytes `space`, `exp` and
`fn` are, each of the four stages of the pipeline returns, so none stops on an access
outside an array: the stores and the reads are at the indices below the final values
of the produced and consumed indices, which are `MAX_CHAR` for the three produced
indices and for the consumed indices of `buffer_1` and `buffer_2`, and 80 for the
consumed index of `buffer_3`. -/
theorem pipeline_stays_inside_arrays (space exp fn : Char) (character : Nat → Char) :
    (get_input character init).1 = .finished ∧
    (andThen (get_input character init) (separate_line space)).1 = .finished ∧
    (upstream space exp character).1 = .finished ∧
    (pipeline space exp fn character).1 = .finished ∧
    ((upstream space exp character).2.buffer_1.produced_idx = MAX_CHAR ∧
      (upstream space exp character).2.buffer_2.produced_idx = MAX_CHAR ∧
      (upstream space exp character).2.buffer_3.produced_idx = MAX_CHAR ∧
      (upstream space exp character).2.buffer_1.consumed_idx = MAX_CHAR ∧
      (upstream space exp character).2.buffer_2.consumed_idx = MAX_CHAR) ∧
    (pipeline space exp fn character).2.buffer_3.produced_idx = MAX_CHAR ∧
    (pipeline space exp fn character).2.buffer_3.consumed_idx = 80 := by
  have hp : pipeline space exp fn character = write_output fn
      (staged character MAX_CHAR MAX_CHAR MAX_CHAR) := by
    unfold pipeline
    rw [upstream_eq, andThen_finished]
  obtain ⟨w1, w2, -, w4⟩ := write_output_finishes fn
    (staged character MAX_CHAR MAX_CHAR MAX_CHAR)
    (by show 80 ≤ MAX_CHAR; decide) (by show 0 + 80 ≤ MAX_CHAR; decide)
  refine ⟨by rw [get_input_eq], by rw [separate_line_after_get_input],
    by rw [upstream_eq], by rw [hp]; exact w1, ?_, by rw [hp, w4]; rfl,
    by rw [hp, w2]; rfl⟩
  rw [upstream_eq]
  exact ⟨rfl, rfl, rfl, rfl, rfl⟩

end SingleThreaded
